import Mathlib

/-!
Verification of the message envelope pipeline of the `pub-sub-client` library:
the pull-time decode/transform/deserialize chain, the publish-time
serialize/encode chain, and the attribute-driven JSON reshaping transforms.

The Rust code is shallowly embedded: `serde_json::Value` becomes `Json`,
`Result` becomes `Except`, `HashMap<String, String>` attribute maps become
association lists, byte vectors become `List Nat`, and the external
serde/base64 collaborators are modelled by an executable JSON renderer and
recursive-descent reader and by an executable standard-alphabet base64
codec, all defined below.
-/

/-- Model of `serde_json::Value`.  Numbers are restricted to integers, which
covers every payload the repository's code and tests exchange. -/
inductive Json where
  | null : Json
  | bool (b : Bool) : Json
  | num (n : Int) : Json
  | str (s : String) : Json
  | arr (elems : List Json) : Json
  | obj (fields : List (String × Json)) : Json

/-- Lookup in an association-list model of a string map
(`HashMap::get` / `Map::get`). -/
def lookupAttr : List (String × String) → String → Option String
  | [], _ => none
  | (k, v) :: rest, key => if k = key then some v else lookupAttr rest key

/-- Lookup of an object field (`serde_json::Map::get`). -/
def lookupField : List (String × Json) → String → Option Json
  | [], _ => none
  | (k, v) :: rest, key => if k = key then some v else lookupField rest key

/-- `serde_json::Map::insert`: replace the value of an existing key,
otherwise add the entry. -/
def insertField : List (String × Json) → String → Json → List (String × Json)
  | [], key, v => [(key, v)]
  | (k, v0) :: rest, key, v =>
    if k = key then (k, v) :: rest else (k, v0) :: insertField rest key v

/-- `Value::get(&str)`: field access on objects, `None` on anything else. -/
def Json.get : Json → String → Option Json
  | .obj fields, key => lookupField fields key
  | _, _ => none

/-- Whether a value is a JSON object. -/
def Json.isObj : Json → Bool
  | .obj _ => true
  | _ => false

/-- The fold `json_path.iter().fold(Some(&mut value), |v, k| v.and_then(|v| v.get_mut(k)))`
from `transform` in `subscriber/mod.rs`: navigate a dotted path. -/
def getPath (j : Json) (path : List String) : Option Json :=
  path.foldl (fun acc k => acc.bind (fun v => v.get k)) (some j)

mutual

/-- Functional counterpart of writing through the `get_mut` chain: apply `f`
to the sub-value at `path`, leaving the value unchanged when the path does
not resolve. -/
def updatePath : Json → List String → (Json → Json) → Json
  | j, [], f => f j
  | .obj fields, k :: rest, f => .obj (updateField fields k rest f)
  | j, _ :: _, _ => j

/-- Helper of `updatePath` descending into an object's field list. -/
def updateField : List (String × Json) → String → List String → (Json → Json) → List (String × Json)
  | [], _, _, _ => []
  | (k0, v) :: tail, k, rest, f =>
    if k0 = k then (k0, updatePath v rest f) :: tail
    else (k0, v) :: updateField tail k rest f

end

/-- Character-level prefix test (`str::starts_with`). -/
def startsWithChars : List Char → List Char → Bool
  | _, [] => true
  | [], _ :: _ => false
  | c :: cs, p :: ps => p = c && startsWithChars cs ps

/-- Helper of `splitDots`, accumulating the current segment reversed. -/
def splitDotsAux : List Char → List Char → List String
  | [], acc => [String.mk acc.reverse]
  | c :: rest, acc =>
    if c = '.' then String.mk acc.reverse :: splitDotsAux rest []
    else splitDotsAux rest (c :: acc)

/-- `str::split('.')` collected to a list. -/
def splitDots (s : String) : List String :=
  splitDotsAux s.data []

/-- The filter `**key == "type" || key.starts_with("type.")`. -/
def typeKeyFilter (key : String) : Bool :=
  key = "type" || startsWithChars key.data "type.".data

/-- The map/filter over `attributes.keys()` producing
`(key, key.split(".").skip(1).collect())` pairs. -/
def typeKeysOf (attrs : List (String × String)) : List (String × List String) :=
  ((attrs.map Prod.fst).filter typeKeyFilter).map (fun k => (k, (splitDots k).drop 1))

/-- Insert into a list already sorted descending by path length, after all
entries of greater or equal length. -/
def insertByLen (x : String × List String) : List (String × List String) → List (String × List String)
  | [] => [x]
  | y :: ys => if y.2.length < x.2.length then x :: y :: ys else y :: insertByLen x ys

/-- The sort `type_keys.sort_unstable_by(|v1, v2| v2.1.len().cmp(&v1.1.len()))`:
descending by path-segment count.  (The Rust sort is unstable, so the relative
order of equal lengths is unspecified; this stable insertion sort realises one
admissible outcome.) -/
def sortByLenDesc (l : List (String × List String)) : List (String × List String) :=
  l.foldr insertByLen []

/-- One iteration of the `for (type_key, json_path) in type_keys` loop:
if the path resolves, replace the sub-value `sv` there with the one-field
object mapping the attribute's value to `sv`. -/
def spliceStep (attrs : List (String × String)) (value : Json) (tk : String × List String) : Json :=
  match getPath value tk.2 with
  | none => value
  | some _ =>
    updatePath value tk.2 (fun sv => Json.obj [((lookupAttr attrs tk.1).getD "", sv)])

/-- The whole `"v1"` branch body of `transform` in
`examples/transform_versioned.rs`: splice every `type`/`type.<path>` key,
deepest path first. -/
def applyTypeKeys (attrs : List (String × String)) (value : Json) : Json :=
  (sortByLenDesc (typeKeysOf attrs)).foldl (spliceStep attrs) value

/-- The error text `anyhow!("Unknow version `{unknown}`")` (sic) of the
versioned transform. -/
def unknownVersionMsg (v : String) : String :=
  "Unknow version `" ++ v ++ "`"

/-- `transform` from `examples/transform_versioned.rs` (after extracting the
envelope's attributes): dispatch on the `version` attribute, defaulting to
`v1`. -/
def versionedTransform (attrs : List (String × String)) (value : Json) : Except String Json :=
  let ver := (lookupAttr attrs "version").getD "v1"
  if ver = "v1" then .ok (applyTypeKeys attrs value)
  else if ver = "v2" then .ok value
  else .error (unknownVersionMsg ver)

/- ## JSON rendering (model of `serde_json` serialization, ASCII output) -/

/-- Hex digit character for a value below 16. -/
def hexDigit (n : Nat) : Char :=
  if n < 10 then Char.ofNat (48 + n) else Char.ofNat (87 + n)

/-- The four hex digits of a code unit below `0x10000`. -/
def uEscapeDigits (n : Nat) : List Char :=
  [hexDigit (n / 4096 % 16), hexDigit (n / 256 % 16),
   hexDigit (n / 16 % 16), hexDigit (n % 16)]

/-- A `\uXXXX` escape for a code unit below `0x10000`. -/
def uEscape (n : Nat) : List Char :=
  '\\' :: 'u' :: uEscapeDigits n

/-- Escape one character of a JSON string: quote and backslash get two-character
escapes, control and non-ASCII characters get `\uXXXX` escapes (with a
surrogate pair above `0xFFFF`), everything else is emitted raw. -/
def escapeChar (c : Char) : List Char :=
  if c = '"' then ['\\', '"']
  else if c = '\\' then ['\\', '\\']
  else if c.toNat < 32 ∨ 127 ≤ c.toNat then
    if c.toNat < 65536 then uEscape c.toNat
    else
      uEscape (55296 + (c.toNat - 65536) / 1024) ++ uEscape (56320 + (c.toNat - 65536) % 1024)
  else [c]

/-- Escape a whole string body. -/
def escapeBody : List Char → List Char
  | [] => []
  | c :: cs => escapeChar c ++ escapeBody cs

/-- Render a JSON string literal with surrounding quotes. -/
def renderString (s : String) : List Char :=
  '"' :: (escapeBody s.data ++ ['"'])

/-- Decimal digit character. -/
def digitChar (n : Nat) : Char :=
  Char.ofNat (48 + n)

/-- Decimal digits of a natural number, least significant first, driven by
fuel (`fuel ≥ n` suffices). -/
def natDigitsRev : Nat → Nat → List Char
  | 0, _ => []
  | fuel + 1, n => if n = 0 then [] else digitChar (n % 10) :: natDigitsRev fuel (n / 10)

/-- Decimal digits of a natural number, most significant first. -/
def natDigits (n : Nat) : List Char :=
  if n = 0 then ['0'] else (natDigitsRev n n).reverse

/-- Render an integer in decimal. -/
def renderInt (i : Int) : List Char :=
  if i < 0 then '-' :: natDigits ((-i).toNat) else natDigits i.toNat

mutual

/-- Compact JSON text of a value (model of `serde_json::to_string`; every
emitted character is ASCII). -/
def render : Json → List Char
  | .null => 'n' :: ['u', 'l', 'l']
  | .bool true => 't' :: ['r', 'u', 'e']
  | .bool false => 'f' :: ['a', 'l', 's', 'e']
  | .num n => renderInt n
  | .str s => renderString s
  | .arr [] => ['[', ']']
  | .arr (e :: es) => '[' :: (render e ++ renderElemsRest es ++ [']'])
  | .obj [] => ['{', '}']
  | .obj (f :: fs) => '{' :: (renderField f ++ renderFieldsRest fs ++ ['}'])

/-- Remaining array elements, each preceded by a comma. -/
def renderElemsRest : List Json → List Char
  | [] => []
  | e :: es => ',' :: (render e ++ renderElemsRest es)

/-- One object member, `"key":value`. -/
def renderField : String × Json → List Char
  | (k, v) => renderString k ++ ':' :: render v

/-- Remaining object members, each preceded by a comma. -/
def renderFieldsRest : List (String × Json) → List Char
  | [] => []
  | f :: fs => ',' :: (renderField f ++ renderFieldsRest fs)

end

/-- Rendered JSON text as a `String`. -/
def renderStr (j : Json) : String :=
  String.mk (render j)

/- ## Base64 (model of the `base64` crate, standard alphabet with padding) -/

/-- The standard base64 alphabet. -/
def base64Table : List Char :=
  ['A', 'B', 'C', 'D', 'E', 'F', 'G', 'H', 'I', 'J', 'K', 'L', 'M',
   'N', 'O', 'P', 'Q', 'R', 'S', 'T', 'U', 'V', 'W', 'X', 'Y', 'Z',
   'a', 'b', 'c', 'd', 'e', 'f', 'g', 'h', 'i', 'j', 'k', 'l', 'm',
   'n', 'o', 'p', 'q', 'r', 's', 't', 'u', 'v', 'w', 'x', 'y', 'z',
   '0', '1', '2', '3', '4', '5', '6', '7', '8', '9', '+', '/']

/-- Character for a sextet value. -/
def encB64 (n : Nat) : Char :=
  base64Table.getD n '?'

/-- Sextet value of an alphabet character. -/
def decB64 (c : Char) : Option Nat :=
  base64Table.findIdx? (fun x => x = c)

/-- `base64::encode`: bytes to text, three bytes per four characters, padded
with `=`. -/
def base64Encode : List Nat → List Char
  | [] => []
  | [b1] => [encB64 (b1 / 4), encB64 (b1 % 4 * 16), '=', '=']
  | [b1, b2] => [encB64 (b1 / 4), encB64 (b1 % 4 * 16 + b2 / 16), encB64 (b2 % 16 * 4), '=']
  | b1 :: b2 :: b3 :: rest =>
    encB64 (b1 / 4) :: encB64 (b1 % 4 * 16 + b2 / 16) ::
      encB64 (b2 % 16 * 4 + b3 / 64) :: encB64 (b3 % 64) :: base64Encode rest

/-- `base64::decode`: text to bytes, rejecting anything that is not
well-formed padded base64 (`=` may appear only as padding of the final
group). -/
def base64Decode : List Char → Option (List Nat)
  | [] => some []
  | c1 :: c2 :: c3 :: c4 :: rest =>
    if c3 = '=' then
      if c4 = '=' ∧ rest = [] then do
        let s1 ← decB64 c1
        let s2 ← decB64 c2
        if s2 % 16 = 0 then some [s1 * 4 + s2 / 16] else none
      else none
    else if c4 = '=' then
      if rest = [] then do
        let s1 ← decB64 c1
        let s2 ← decB64 c2
        let s3 ← decB64 c3
        if s3 % 4 = 0 then some [s1 * 4 + s2 / 16, s2 % 16 * 16 + s3 / 4] else none
      else none
    else do
      let s1 ← decB64 c1
      let s2 ← decB64 c2
      let s3 ← decB64 c3
      let s4 ← decB64 c4
      let bs ← base64Decode rest
      some ((s1 * 4 + s2 / 16) :: (s2 % 16 * 16 + s3 / 4) :: (s3 % 4 * 64 + s4) :: bs)
  | _ => none

/- ## JSON reading (model of `serde_json` parsing) -/

/-- Numeric value of a hex digit character. -/
def hexVal (c : Char) : Option Nat :=
  if 48 ≤ c.toNat ∧ c.toNat ≤ 57 then some (c.toNat - 48)
  else if 97 ≤ c.toNat ∧ c.toNat ≤ 102 then some (c.toNat - 87)
  else if 65 ≤ c.toNat ∧ c.toNat ≤ 70 then some (c.toNat - 55)
  else none

/-- Decode a simple (single-character) escape. -/
def simpleEscape (e : Char) : Option Char :=
  if e = '"' then some '"'
  else if e = '\\' then some '\\'
  else if e = '/' then some '/'
  else if e = 'b' then some (Char.ofNat 8)
  else if e = 'f' then some (Char.ofNat 12)
  else if e = 'n' then some '\n'
  else if e = 'r' then some (Char.ofNat 13)
  else if e = 't' then some '\t'
  else none

/-- Read four hex digits into a code unit. -/
def parseUEscape4 (cs : List Char) : Option (Nat × List Char) :=
  match cs with
  | h1 :: h2 :: h3 :: h4 :: rest =>
    match hexVal h1, hexVal h2, hexVal h3, hexVal h4 with
    | some a, some b, some c, some d => some ((((a * 16 + b) * 16 + c) * 16 + d), rest)
    | _, _, _, _ => none
  | _ => none

/-- Decode the part of a `\uXXXX` escape after `\u`, combining a high
surrogate with the following `\uXXXX` low surrogate and rejecting lone
surrogates. -/
def parseUChar (cs : List Char) : Option (Char × List Char) :=
  (parseUEscape4 cs).bind (fun p =>
    if p.1 < 55296 ∨ 57344 ≤ p.1 then some (Char.ofNat p.1, p.2)
    else if p.1 ≤ 56319 then
      match p.2 with
      | x1 :: x2 :: rest2a =>
        if x1 = '\\' ∧ x2 = 'u' then
          (parseUEscape4 rest2a).bind (fun q =>
            if 56320 ≤ q.1 ∧ q.1 ≤ 57343 then
              some (Char.ofNat (65536 + (p.1 - 55296) * 1024 + (q.1 - 56320)), q.2)
            else none)
        else none
      | _ => none
    else none)

/-- Read the body of a JSON string literal up to and past the closing quote,
handling the two-character escapes, `\uXXXX` escapes and surrogate pairs.
Returns the decoded characters and the remaining input.  Fuel bounds the
number of decoded characters; the input length suffices. -/
def parseStrBody : Nat → List Char → Option (List Char × List Char)
  | 0, _ => none
  | _ + 1, [] => none
  | fuel + 1, c :: rest =>
    if c = '"' then some ([], rest)
    else if c = '\\' then
      match rest with
      | [] => none
      | e :: rest1 =>
        if e = 'u' then
          match parseUChar rest1 with
          | some (ch, rest2) => (parseStrBody fuel rest2).map (fun p => (ch :: p.1, p.2))
          | none => none
        else
          match simpleEscape e with
          | some d => (parseStrBody fuel rest1).map (fun p => (d :: p.1, p.2))
          | none => none
    else if c.toNat < 32 then none
    else (parseStrBody fuel rest).map (fun p => (c :: p.1, p.2))

/-- Longest prefix of decimal digits and the remaining input. -/
def takeDigits : List Char → List Char × List Char
  | [] => ([], [])
  | c :: rest =>
    if c.isDigit then
      let p := takeDigits rest
      (c :: p.1, p.2)
    else ([], c :: rest)

/-- Numeric value of a digit string, most significant first. -/
def digitsToNat (ds : List Char) : Nat :=
  ds.foldl (fun a c => a * 10 + (c.toNat - 48)) 0

mutual

/-- Read one JSON value from the front of the input, returning it and the
remaining input.  Fuel bounds the recursion depth; `fuelOf` of the value
suffices. -/
def parseVal : Nat → List Char → Option (Json × List Char)
  | 0, _ => none
  | fuel + 1, cs =>
    match cs with
    | [] => none
    | c :: rest =>
      if c = 'n' then
        match rest with
        | 'u' :: 'l' :: 'l' :: rest2 => some (.null, rest2)
        | _ => none
      else if c = 't' then
        match rest with
        | 'r' :: 'u' :: 'e' :: rest2 => some (.bool true, rest2)
        | _ => none
      else if c = 'f' then
        match rest with
        | 'a' :: 'l' :: 's' :: 'e' :: rest2 => some (.bool false, rest2)
        | _ => none
      else if c = '"' then
        (parseStrBody (rest.length + 1) rest).map (fun p => (.str (String.mk p.1), p.2))
      else if c = '-' then
        match takeDigits rest with
        | ([], _) => none
        | (ds, rest2) => some (.num (-(digitsToNat ds : Int)), rest2)
      else if c = '[' then
        match rest with
        | [] => none
        | r :: rs =>
          if r = ']' then some (.arr [], rs)
          else (parseElems fuel (r :: rs)).map (fun p => (.arr p.1, p.2))
      else if c = '{' then
        match rest with
        | [] => none
        | r :: rs =>
          if r = '}' then some (.obj [], rs)
          else (parseFields fuel (r :: rs)).map (fun p => (.obj p.1, p.2))
      else if c.isDigit then
        match takeDigits (c :: rest) with
        | (ds, rest2) => some (.num (digitsToNat ds : Int), rest2)
      else none

/-- Read the elements of a non-empty array, past the closing bracket. -/
def parseElems : Nat → List Char → Option (List Json × List Char)
  | 0, _ => none
  | fuel + 1, cs => do
    let (j, rest) ← parseVal fuel cs
    match rest with
    | r :: rest2 =>
      if r = ',' then (parseElems fuel rest2).map (fun p => (j :: p.1, p.2))
      else if r = ']' then some ([j], rest2)
      else none
    | [] => none

/-- Read the members of a non-empty object, past the closing brace. -/
def parseFields : Nat → List Char → Option (List (String × Json) × List Char)
  | 0, _ => none
  | fuel + 1, cs =>
    match cs with
    | c :: cs2 =>
      if c = '"' then do
        let (key, rest) ← parseStrBody (cs2.length + 1) cs2
        match rest with
        | r :: rest2 =>
          if r = ':' then do
            let (v, rest3) ← parseVal fuel rest2
            match rest3 with
            | r2 :: rest4 =>
              if r2 = ',' then
                (parseFields fuel rest4).map (fun p => ((String.mk key, v) :: p.1, p.2))
              else if r2 = '}' then some ([(String.mk key, v)], rest4)
              else none
            | [] => none
          else none
        | [] => none
      else none
    | [] => none

end

mutual

/-- Fuel sufficient for `parseVal` to read the rendering of a value. -/
def fuelOf : Json → Nat
  | .null => 1
  | .bool _ => 1
  | .num _ => 1
  | .str _ => 1
  | .arr es => 1 + fuelOfElems es
  | .obj fs => 1 + fuelOfFields fs

/-- Fuel for the elements of an array. -/
def fuelOfElems : List Json → Nat
  | [] => 0
  | e :: es => 1 + fuelOf e + fuelOfElems es

/-- Fuel for the members of an object. -/
def fuelOfFields : List (String × Json) → Nat
  | [] => 0
  | f :: fs => 1 + fuelOf f.2 + fuelOfFields fs

end

/-- Model of `serde_json::from_slice::<Value>` on text: read exactly one JSON
value spanning the whole input. -/
def parseJson (cs : List Char) : Option Json :=
  match parseVal (cs.length + 1) cs with
  | some (j, []) => some j
  | _ => none

/- ## Error taxonomy (`src/error/mod.rs`); sources are modelled as strings -/

/-- The library's `Error` enum. -/
inductive Error where
  | initialization (reason : String) (source : String)
  | tokenFetch (source : String)
  | httpServiceCommunication (source : String)
  | unexpectedHttpStatusCode (status : Nat) (msg : String)
  | unexpectedHttpResponse (source : String)
  | noBase64 (source : String)
  | noData
  | deserialize (source : String)
  | serialize (source : String)
  | transform (source : String)
deriving DecidableEq

/-- Lift an `Option` into the library's `Except`-of-`Error` world
(`ok_or` / `map_err`). -/
def orErr (o : Option α) (e : Error) : Except Error α :=
  match o with
  | some a => .ok a
  | none => .error e

/- ## Subscriber (`pub-sub-client/src/subscriber/mod.rs`) -/

/-- `RawPulledMessage`: the wire message inside a pulled envelope.
`publishTime` stands for the parsed RFC3339 timestamp. -/
structure RawPulledMessage where
  data : Option String
  attributes : Option (List (String × String))
  id : String
  publishTime : String
  orderingKey : Option String

/-- `RawPulledMessageEnvelope`: one entry of `receivedMessages`
(`deliveryAttempt` defaults to 0 when the emulator omits it). -/
structure RawPulledMessageEnvelope where
  ackId : String
  message : RawPulledMessage
  deliveryAttempt : Nat

/-- `PulledMessage<M>`: the value returned to the caller, whose `message`
field carries the per-item success or failure. -/
structure PulledMessage (M : Type) where
  ackId : String
  message : Except Error M
  attributes : Option (List (String × String))
  id : String
  publishTime : String
  orderingKey : Option String
  deliveryAttempt : Nat

/-- `base64::decode(data)` with its error mapped to `NoBase64`. -/
def decodeData (d : String) : Except Error (List Nat) :=
  orErr (base64Decode d.data) (Error.noBase64 "invalid base64 data")

/-- `serde_json::from_slice::<Value>(&bytes)` with its error mapped to
`Deserialize`.  Bytes are decoded to text one byte per character, which is
exact on the ASCII output of the modelled serializer. -/
def fromSlice (bytes : List Nat) : Except Error Json :=
  orErr (parseJson (bytes.map Char.ofNat)) (Error.deserialize "invalid JSON data")

/-- The body of the `envelopes.into_iter().map(...)` closure in
`deserialize`: run the decode/transform/deserialize chain for one envelope
and repack its metadata around the per-item result. -/
def processOne (fromJson : Json → Except String M)
    (transform : RawPulledMessageEnvelope → Json → Except String Json)
    (envelope : RawPulledMessageEnvelope) : PulledMessage M :=
  { ackId := envelope.ackId
    message :=
      (orErr envelope.message.data Error.noData).bind (fun d =>
        (decodeData d).bind (fun bytes =>
          (fromSlice bytes).bind (fun value =>
            (match transform envelope value with
              | .ok v => Except.ok v
              | .error e => Except.error (Error.transform e)).bind (fun tv =>
              match fromJson tv with
              | .ok m => Except.ok m
              | .error e => .error (Error.deserialize e)))))
    attributes := envelope.message.attributes
    id := envelope.message.id
    publishTime := envelope.message.publishTime
    orderingKey := envelope.message.orderingKey
    deliveryAttempt := envelope.deliveryAttempt }

/-- `deserialize` from `subscriber/mod.rs`: process every envelope of a pull
batch independently. -/
def deserialize (fromJson : Json → Except String M)
    (transform : RawPulledMessageEnvelope → Json → Except String Json)
    (envelopes : List RawPulledMessageEnvelope) : List (PulledMessage M) :=
  envelopes.map (processOne fromJson transform)

/-- `pull_with_transform` as a function of the outcome of `pull_raw` (the
HTTP call): on transport success the batch result is `Ok` of the processed
list, on transport failure the error propagates. -/
def pullWithTransform (fromJson : Json → Except String M)
    (transform : RawPulledMessageEnvelope → Json → Except String Json)
    (pullRawResult : Except Error (List RawPulledMessageEnvelope)) :
    Except Error (List (PulledMessage M)) :=
  pullRawResult.map (deserialize fromJson transform)

/-- The transform `|_, value| Ok(value)` used by `pull`. -/
def identityTransform (_ : RawPulledMessageEnvelope) (value : Json) : Except String Json :=
  .ok value

/- ## Publisher (`pub-sub-client/src/publisher/mod.rs`) -/

/-- `PubSubMessage` (outbound wire message). -/
structure PubSubMessage where
  data : Option String
  attributes : Option (List (String × String))
  orderingKey : Option String

/-- The `envelopes.into_iter().map(...).collect::<Result<Vec<_>, _>>()`
step of `publish`: serialize every value, stopping at the first failure. -/
def collectSerialized (serialize : M → Except String (List Nat)) :
    List (M × Option (List (String × String))) →
    Except String (List (List Nat × Option (List (String × String))))
  | [] => .ok []
  | (m, attrs) :: rest =>
    (serialize m).bind (fun bytes =>
      (collectSerialized serialize rest).map (fun tail => (bytes, attrs) :: tail))

/-- The message-building step of `publish`:
`PubSubMessage { data: Some(base64::encode(bytes)), attributes, ordering_key }`. -/
def buildMessage (orderingKey : Option String)
    (p : List Nat × Option (List (String × String))) : PubSubMessage :=
  { data := some (String.mk (base64Encode p.1))
    attributes := p.2
    orderingKey := orderingKey }

/-- `publish`: serialize the whole batch fail-fast, then build the batch
request and delegate it to `publish_raw` (the HTTP call, abstracted as a
function argument). -/
def publish (serialize : M → Except String (List Nat))
    (publishRaw : List PubSubMessage → Except Error (List String))
    (envelopes : List (M × Option (List (String × String))))
    (orderingKey : Option String) : Except Error (List String) :=
  match collectSerialized serialize envelopes with
  | .error e => .error (Error.serialize e)
  | .ok pairs => publishRaw (pairs.map (buildMessage orderingKey))

/- ## Transforms from `src/transform/mod.rs` and the round-trip encoding -/

/-- The reason string `format!("Missing attribute `{}`", key)`. -/
def missingAttributeMsg (key : String) : String :=
  "Missing attribute `" ++ key ++ "`"

/-- The reason string `format!("Unexpected JSON value `{}`", other)`
(`Display` of a `serde_json::Value` is its compact rendering). -/
def unexpectedValueMsg (v : Json) : String :=
  "Unexpected JSON value `" ++ renderStr v ++ "`"

/-- `insert_attribute` from `src/transform/mod.rs`: require the attribute
and an object value, then insert `key: attributes[key]` as a JSON string. -/
def insert_attribute (key : String) (attrs : List (String × String)) (value : Json) :
    Except String Json :=
  match lookupAttr attrs key with
  | some v =>
    match value with
    | Json.obj fields => .ok (Json.obj (insertField fields key (Json.str v)))
    | other => .error (unexpectedValueMsg other)
  | none => .error (missingAttributeMsg key)

/-- UTF-8 bytes of rendered JSON (`serde_json::to_vec` composed with the
modelled renderer; exact because the renderer emits only ASCII). -/
def jsonBytes (j : Json) : List Nat :=
  (render j).map Char.toNat

/-- The publish-side `data` field for a value: serialize to JSON bytes and
base64-encode. -/
def encodeData (toJson : M → Json) (v : M) : String :=
  String.mk (base64Encode (jsonBytes (toJson v)))

/- ## Error construction for non-2xx responses -/

/-- An HTTP response as the error path sees it: a status code and the
outcome of `response.text()` (which can itself fail). -/
structure HttpResponse where
  status : Nat
  bodyText : Except String String

/-- `v["error"]["message"]`: `serde_json::Value` string indexing, yielding
`Null` for a missing field or a non-object. -/
def jsonIndex (j : Json) (key : String) : Json :=
  (j.get key).getD Json.null

/-- The shared `text() ... and_then(parse)` chain of
`unexpected_http_status_code`: fetch the body, parse it as JSON and render
`v["error"]["message"]`, or describe the failure. -/
def textChain (bodyText : Except String String) : Except String String :=
  (bodyText.mapError (fun e => "Failed to get response body as text: " ++ e)).bind
    (fun text =>
      match parseJson text.data with
      | some v => .ok (renderStr (jsonIndex (jsonIndex v "error") "message"))
      | none => .error "Failed to parse error response: invalid JSON")

/-- `Error::unexpected_http_status_code` as written in
`pub-sub-client/src/error/mod.rs`, which ends the chain with `.unwrap()`:
`none` models the panic on the `Err` branch. -/
def unexpectedHttpStatusCodeUnwrap (r : HttpResponse) : Option Error :=
  match textChain r.bodyText with
  | .ok msg => some (Error.unexpectedHttpStatusCode r.status msg)
  | .error _ => none

/-- `Error::unexpected_http_status_code` as written in
`src/error/mod.rs`, which ends the chain with `.unwrap_or_else(identity)`:
the failure description itself becomes the surfaced message. -/
def unexpectedHttpStatusCodeSafe (r : HttpResponse) : Error :=
  Error.unexpectedHttpStatusCode r.status
    (match textChain r.bodyText with
      | .ok msg => msg
      | .error msg => msg)

/-- Characters that may start the rendering of a JSON value. -/
def isValueStart (c : Char) : Prop :=
  c = 'n' ∨ c = 't' ∨ c = 'f' ∨ c = '"' ∨ c = '-' ∨ c = '[' ∨ c = '{' ∨ c.isDigit = true

/-- Inputs whose first character cannot extend a decimal number. -/
def noDigitHead : List Char → Prop
  | [] => True
  | c :: _ => c.isDigit = false

/- # Theorems -/

/- ## Sorting of `type` keys (descending by path length) -/

theorem mem_insertByLen {z x : String × List String} {l : List (String × List String)}
    (h : z ∈ insertByLen x l) : z = x ∨ z ∈ l := by
  revert h
  induction l with
  | nil => intro h; simpa [insertByLen] using h
  | cons y ys ih =>
    intro h
    by_cases hc : y.2.length < x.2.length
    · simp only [insertByLen, if_pos hc] at h
      rcases List.mem_cons.mp h with h | h
      · exact Or.inl h
      · exact Or.inr h
    · simp only [insertByLen, if_neg hc] at h
      rcases List.mem_cons.mp h with h | h
      · exact Or.inr (by simp [h])
      · rcases ih h with h | h
        · exact Or.inl h
        · exact Or.inr (by simp [h])

theorem pairwise_insertByLen {x : String × List String} {l : List (String × List String)}
    (h : l.Pairwise (fun a b => b.2.length ≤ a.2.length)) :
    (insertByLen x l).Pairwise (fun a b => b.2.length ≤ a.2.length) := by
  revert h
  induction l with
  | nil => intro h; simp [insertByLen]
  | cons y ys ih =>
    intro h
    rcases List.pairwise_cons.mp h with ⟨hy, hys⟩
    by_cases hc : y.2.length < x.2.length
    · simp only [insertByLen, if_pos hc]
      refine List.pairwise_cons.mpr ⟨?_, h⟩
      intro z hz
      rcases List.mem_cons.mp hz with hz | hz
      · subst hz; omega
      · have := hy z hz
        omega
    · simp only [insertByLen, if_neg hc]
      refine List.pairwise_cons.mpr ⟨?_, ih hys⟩
      intro z hz
      rcases mem_insertByLen hz with hz | hz
      · subst hz; omega
      · exact hy z hz

theorem sortByLenDesc_pairwise (l : List (String × List String)) :
    (sortByLenDesc l).Pairwise (fun a b => b.2.length ≤ a.2.length) := by
  induction l with
  | nil => simp [sortByLenDesc]
  | cons x xs ih => exact pairwise_insertByLen ih

/-- Claim C2: in the versioned (v1) transform the `type`/`type.<path>` keys
are processed in descending order of path length (the splice loop folds over
`sortByLenDesc`, whose output is pairwise descending by path-segment count),
and concretely, for attributes `type ↦ A`, `type.x ↦ B` and payload
`x: (y: 1)` the deeper key is applied first, yielding
`A: (x: (B: (y: 1)))`. -/
theorem versioned_transform_longest_path_first :
    (∀ tks : List (String × List String),
      (sortByLenDesc tks).Pairwise (fun a b => b.2.length ≤ a.2.length)) ∧
    (∀ attrs value, applyTypeKeys attrs value =
      (sortByLenDesc (typeKeysOf attrs)).foldl (spliceStep attrs) value) ∧
    versionedTransform [("type", "A"), ("type.x", "B")]
        (Json.obj [("x", Json.obj [("y", Json.num 1)])]) =
      .ok (Json.obj [("A", Json.obj [("x", Json.obj [("B", Json.obj [("y", Json.num 1)])])])]) :=
  ⟨sortByLenDesc_pairwise, fun _ _ => rfl, rfl⟩

/-- Claim C4: the versioned transform dispatches on the `version` attribute,
defaulting to `v1` when absent; `v2` returns the value unchanged; any other
version fails with the unknown-version error carrying that string, for every
payload. -/
theorem versioned_transform_version_dispatch
    (attrs : List (String × String)) (v : Json) :
    (lookupAttr attrs "version" = none →
      versionedTransform attrs v = .ok (applyTypeKeys attrs v)) ∧
    (lookupAttr attrs "version" = some "v2" → versionedTransform attrs v = .ok v) ∧
    (∀ s, lookupAttr attrs "version" = some s → ¬s = "v1" → ¬s = "v2" →
      versionedTransform attrs v = .error (unknownVersionMsg s)) := by
  refine ⟨fun h => ?_, fun h => ?_, fun s h h1 h2 => ?_⟩
  · simp [versionedTransform, h]
  · simp [versionedTransform, h]
  · simp [versionedTransform, h, h1, h2]

/-- Witness for C4 at concrete attribute maps. -/
theorem versioned_transform_version_dispatch_witness :
    versionedTransform [] Json.null = .ok (applyTypeKeys [] Json.null) ∧
    versionedTransform [("version", "v2")] (Json.num 3) = .ok (Json.num 3) ∧
    versionedTransform [("version", "v3")] (Json.num 3) =
      .error (unknownVersionMsg "v3") :=
  ⟨(versioned_transform_version_dispatch [] Json.null).1 rfl,
   (versioned_transform_version_dispatch [("version", "v2")] (Json.num 3)).2.1 rfl,
   (versioned_transform_version_dispatch [("version", "v3")] (Json.num 3)).2.2 "v3" rfl
     (by decide) (by decide)⟩

/- ## `insert_attribute` -/

theorem lookupField_insertField_self (fields : List (String × Json)) (key : String) (v : Json) :
    lookupField (insertField fields key v) key = some v := by
  induction fields with
  | nil => simp [insertField, lookupField]
  | cons f fs ih =>
    by_cases hc : f.1 = key
    · simp [insertField, hc, lookupField]
    · simp [insertField, hc, lookupField, ih]

theorem lookupField_insertField_ne (fields : List (String × Json)) (key k2 : String) (v : Json)
    (h : ¬k2 = key) : lookupField (insertField fields key v) k2 = lookupField fields k2 := by
  have h' : ¬key = k2 := fun hh => h hh.symm
  induction fields with
  | nil => simp [insertField, lookupField, h']
  | cons f fs ih =>
    obtain ⟨k0, v0⟩ := f
    by_cases hc : k0 = key
    · subst hc
      simp [insertField, lookupField, h']
    · by_cases hc2 : k0 = k2
      · simp [insertField, hc, lookupField, hc2, h]
      · simp [insertField, hc, lookupField, hc2, ih]

/-- Claim C5: `insert_attribute` fails with the missing-attribute error when
the key is absent from the attributes, fails with the unexpected-value error
(returning no partially modified object) when the value is not a JSON
object, and otherwise returns the object extended with an entry mapping the
key to the attribute's value as a JSON string, leaving every other key's
binding unchanged. -/
theorem insert_attribute_spec (key : String) (attrs : List (String × String)) (v : Json) :
    (lookupAttr attrs key = none →
      insert_attribute key attrs v = .error (missingAttributeMsg key)) ∧
    (∀ val, lookupAttr attrs key = some val →
      (v.isObj = false → insert_attribute key attrs v = .error (unexpectedValueMsg v)) ∧
      (∀ fields, v = Json.obj fields →
        insert_attribute key attrs v =
          .ok (Json.obj (insertField fields key (Json.str val))) ∧
        lookupField (insertField fields key (Json.str val)) key = some (Json.str val) ∧
        (∀ k2, ¬k2 = key →
          lookupField (insertField fields key (Json.str val)) k2 = lookupField fields k2))) := by
  refine ⟨fun h => ?_, fun val h => ⟨fun hobj => ?_, fun fields hv => ?_⟩⟩
  · simp [insert_attribute, h]
  · cases v <;> simp_all [insert_attribute, Json.isObj]
  · subst hv
    exact ⟨by simp [insert_attribute, h],
      lookupField_insertField_self fields key (Json.str val),
      fun k2 hk2 => lookupField_insertField_ne fields key k2 (Json.str val) hk2⟩

/-- Witness for C5: missing attribute on an object payload, a non-object
payload, and a successful insertion. -/
theorem insert_attribute_spec_witness :
    insert_attribute "type" [] (Json.obj [("text", Json.str "t")]) =
      .error (missingAttributeMsg "type") ∧
    insert_attribute "type" [("type", "Foo")] (Json.num 7) =
      .error (unexpectedValueMsg (Json.num 7)) ∧
    insert_attribute "type" [("type", "Foo")] (Json.obj [("text", Json.str "t")]) =
      .ok (Json.obj [("text", Json.str "t"), ("type", Json.str "Foo")]) :=
  ⟨(insert_attribute_spec "type" [] (Json.obj [("text", Json.str "t")])).1 rfl,
   ((insert_attribute_spec "type" [("type", "Foo")] (Json.num 7)).2 "Foo" rfl).1 rfl,
   ((((insert_attribute_spec "type" [("type", "Foo")]
       (Json.obj [("text", Json.str "t")])).2 "Foo" rfl).2
       [("text", Json.str "t")]) rfl).1⟩

/- ## Pull batch shape, isolation and metadata -/

/-- Claim C10: the pulled message built for an envelope carries the
envelope's metadata — ack id, attributes, message id, publish time, ordering
key and delivery attempt — unchanged, whatever the per-item decode outcome
is, and the batch operation applies exactly this per-envelope construction. -/
theorem pulled_message_preserves_metadata {M : Type}
    (fromJson : Json → Except String M)
    (transform : RawPulledMessageEnvelope → Json → Except String Json)
    (envelope : RawPulledMessageEnvelope) :
    (processOne fromJson transform envelope).ackId = envelope.ackId ∧
    (processOne fromJson transform envelope).attributes = envelope.message.attributes ∧
    (processOne fromJson transform envelope).id = envelope.message.id ∧
    (processOne fromJson transform envelope).publishTime = envelope.message.publishTime ∧
    (processOne fromJson transform envelope).orderingKey = envelope.message.orderingKey ∧
    (processOne fromJson transform envelope).deliveryAttempt = envelope.deliveryAttempt ∧
    (∀ envelopes, deserialize fromJson transform envelopes =
      envelopes.map (processOne fromJson transform)) :=
  ⟨rfl, rfl, rfl, rfl, rfl, rfl, fun _ => rfl⟩

/-- Claim C1: pull deserialization returns one pulled message per input
envelope in input order, each item being the independent per-envelope
processing of its own envelope (so one item's failure is recorded in that
item's `message` field and cannot affect siblings), and the batch-level
result of `pull_with_transform` is `Ok` exactly when the HTTP call
(`pull_raw`) succeeded. -/
theorem pull_batch_one_per_envelope {M : Type}
    (fromJson : Json → Except String M)
    (transform : RawPulledMessageEnvelope → Json → Except String Json)
    (envelopes : List RawPulledMessageEnvelope) :
    (deserialize fromJson transform envelopes).length = envelopes.length ∧
    (∀ i, ∀ h : i < envelopes.length,
      (deserialize fromJson transform envelopes)[i]? =
        some (processOne fromJson transform (envelopes.get ⟨i, h⟩))) ∧
    (∀ envs2, pullWithTransform fromJson transform (.ok envs2) =
      .ok (deserialize fromJson transform envs2)) ∧
    (∀ e, pullWithTransform (M := M) fromJson transform (.error e) = .error e) := by
  refine ⟨by simp [deserialize], fun i h => ?_, fun envs2 => rfl, fun e => rfl⟩
  simp [deserialize, List.getElem?_map, List.getElem?_eq_getElem h]

/-- Witness for C1 on a concrete two-envelope batch. -/
theorem pull_batch_one_per_envelope_witness :
    (deserialize (M := Json) Except.ok identityTransform
      [⟨"a0", ⟨none, none, "i0", "t0", none⟩, 0⟩,
       ⟨"a1", ⟨some "bm9t", some [], "i1", "t1", none⟩, 1⟩]).length = 2 ∧
    (deserialize (M := Json) Except.ok identityTransform
      [⟨"a0", ⟨none, none, "i0", "t0", none⟩, 0⟩,
       ⟨"a1", ⟨some "bm9t", some [], "i1", "t1", none⟩, 1⟩])[0]? =
      some (processOne Except.ok identityTransform ⟨"a0", ⟨none, none, "i0", "t0", none⟩, 0⟩) :=
  ⟨(pull_batch_one_per_envelope Except.ok identityTransform _).1,
   (pull_batch_one_per_envelope Except.ok identityTransform
      [⟨"a0", ⟨none, none, "i0", "t0", none⟩, 0⟩,
       ⟨"a1", ⟨some "bm9t", some [], "i1", "t1", none⟩, 1⟩]).2.1 0 (by decide)⟩

/-- Claim C8: an envelope whose wire message has no `data` field yields the
`NoData` error in that single item's `message` slot, while every item of the
batch — including that one — is still the independent processing of its own
envelope. -/
theorem no_data_per_item_error {M : Type}
    (fromJson : Json → Except String M)
    (transform : RawPulledMessageEnvelope → Json → Except String Json)
    (envelopes : List RawPulledMessageEnvelope) (i : Nat) (h : i < envelopes.length)
    (hd : (envelopes.get ⟨i, h⟩).message.data = none) :
    ((deserialize fromJson transform envelopes)[i]?).map (fun pm => pm.message) =
      some (Except.error Error.noData) ∧
    (∀ j, ∀ hj : j < envelopes.length,
      (deserialize fromJson transform envelopes)[j]? =
        some (processOne fromJson transform (envelopes.get ⟨j, hj⟩))) := by
  refine ⟨?_, fun j hj => by simp [deserialize, List.getElem?_map, List.getElem?_eq_getElem hj]⟩
  have hd2 : envelopes[i].message.data = none := hd
  simp [deserialize, List.getElem?_map, List.getElem?_eq_getElem h, processOne, orErr, hd2,
    Except.bind]

/-- Witness for C8: first envelope of a two-envelope batch has no data. -/
theorem no_data_per_item_error_witness :
    ((deserialize (M := Json) Except.ok identityTransform
      [⟨"a0", ⟨none, none, "i0", "t0", none⟩, 0⟩,
       ⟨"a1", ⟨some "e30=", some [], "i1", "t1", none⟩, 1⟩])[0]?).map (fun pm => pm.message) =
      some (Except.error Error.noData) :=
  (no_data_per_item_error Except.ok identityTransform
    [⟨"a0", ⟨none, none, "i0", "t0", none⟩, 0⟩,
     ⟨"a1", ⟨some "e30=", some [], "i1", "t1", none⟩, 1⟩] 0 (by decide) rfl).1

/- ## Publish fail-fast -/

theorem collectSerialized_of_mem_error {M : Type}
    (serialize : M → Except String (List Nat))
    (envs : List (M × Option (List (String × String))))
    (x : M × Option (List (String × String))) (hx : x ∈ envs)
    (e0 : String) (he : serialize x.1 = .error e0) :
    ∃ e, collectSerialized serialize envs = .error e := by
  induction envs with
  | nil => cases hx
  | cons y ys ih =>
    rcases List.mem_cons.mp hx with hxy | hxy
    · subst hxy
      refine ⟨e0, ?_⟩
      obtain ⟨m, attrs⟩ := x
      simp only [collectSerialized]
      simp [he, Except.bind]
    · obtain ⟨m, attrs⟩ := y
      cases hs : serialize m with
      | error e =>
        refine ⟨e, ?_⟩
        simp only [collectSerialized]
        simp [hs, Except.bind]
      | ok bytes =>
        obtain ⟨e, he2⟩ := ih hxy
        refine ⟨e, ?_⟩
        simp only [collectSerialized]
        simp [hs, he2, Except.bind, Except.map]

/-- Claim C3: if any message of a publish batch fails to serialize, the call
returns a serialization error and the abstracted HTTP layer (`publish_raw`)
is never consulted — the result does not depend on it at all; only when the
whole batch serializes is the built request delegated to `publish_raw`. -/
theorem publish_fail_fast {M : Type}
    (serialize : M → Except String (List Nat))
    (envelopes : List (M × Option (List (String × String))))
    (orderingKey : Option String) :
    (∀ x, x ∈ envelopes → ∀ e0, serialize x.1 = .error e0 →
      (∀ publishRaw publishRaw2,
        publish serialize publishRaw envelopes orderingKey =
          publish serialize publishRaw2 envelopes orderingKey) ∧
      (∃ e, ∀ publishRaw,
        publish serialize publishRaw envelopes orderingKey = .error (Error.serialize e))) ∧
    (∀ pairs, collectSerialized serialize envelopes = .ok pairs →
      ∀ publishRaw, publish serialize publishRaw envelopes orderingKey =
        publishRaw (pairs.map (buildMessage orderingKey))) := by
  constructor
  · intro x hx e0 he
    obtain ⟨e, hee⟩ := collectSerialized_of_mem_error serialize envelopes x hx e0 he
    exact ⟨fun p1 p2 => by simp [publish, hee], ⟨e, fun p1 => by simp [publish, hee]⟩⟩
  · intro pairs hp publishRaw
    simp [publish, hp]

/-- Witness for C3: a three-message batch whose second message cannot be
serialized is rejected without consulting either of two distinct transports,
and a fully serializable batch is delegated. -/
theorem publish_fail_fast_witness :
    (publish (M := Json)
        (fun j => match j with | Json.null => .error "boom" | _ => .ok [])
        (fun _ => .ok ["would-have-published"])
        [(Json.num 1, none), (Json.null, none), (Json.num 3, none)] none =
      publish (fun j => match j with | Json.null => .error "boom" | _ => .ok [])
        (fun _ => .error (Error.httpServiceCommunication "down"))
        [(Json.num 1, none), (Json.null, none), (Json.num 3, none)] none) ∧
    (∃ e, ∀ publishRaw,
      publish (M := Json)
        (fun j => match j with | Json.null => .error "boom" | _ => .ok [])
        publishRaw
        [(Json.num 1, none), (Json.null, none), (Json.num 3, none)] none =
        .error (Error.serialize e)) ∧
    (∀ publishRaw, publish (M := Json)
        (fun j => match j with | Json.null => .error "boom" | _ => .ok [])
        publishRaw [(Json.num 1, none)] none =
      publishRaw ([(([] : List Nat), (none : Option (List (String × String))))].map
        (buildMessage none))) := by
  refine ⟨?_, ?_, ?_⟩
  · exact ((publish_fail_fast (M := Json)
      (fun j => match j with | Json.null => .error "boom" | _ => .ok [])
      [(Json.num 1, none), (Json.null, none), (Json.num 3, none)] none).1
      (Json.null, none) (by simp) "boom" rfl).1 _ _
  · exact ((publish_fail_fast (M := Json)
      (fun j => match j with | Json.null => .error "boom" | _ => .ok [])
      [(Json.num 1, none), (Json.null, none), (Json.num 3, none)] none).1
      (Json.null, none) (by simp) "boom" rfl).2
  · exact (publish_fail_fast (M := Json)
      (fun j => match j with | Json.null => .error "boom" | _ => .ok [])
      [(Json.num 1, none)] none).2 [([], none)] rfl

/- ## Non-2xx error construction -/

/-- Claim C9 (code bug): for a non-2xx response whose body parses as the
error shape the surfaced error carries the status and the rendered
`error.message`, but when the body is not JSON the `pub-sub-client`
variant's `.unwrap()` panics (modelled as `none`) instead of returning an
error value — only the `src` variant's `.unwrap_or_else(identity)` returns
an error value there. -/
theorem unexpected_status_code_construction :
    unexpectedHttpStatusCodeUnwrap ⟨500, .ok "oops"⟩ = none ∧
    unexpectedHttpStatusCodeSafe ⟨500, .ok "oops"⟩ =
      Error.unexpectedHttpStatusCode 500 "Failed to parse error response: invalid JSON" ∧
    unexpectedHttpStatusCodeUnwrap
        ⟨404, .ok "\x7b\"error\":\x7b\"message\":\"not found\"\x7d\x7d"⟩ =
      some (Error.unexpectedHttpStatusCode 404 "\"not found\"") ∧
    unexpectedHttpStatusCodeUnwrap ⟨502, .error "connection reset"⟩ = none ∧
    unexpectedHttpStatusCodeSafe ⟨502, .error "connection reset"⟩ =
      Error.unexpectedHttpStatusCode 502
        "Failed to get response body as text: connection reset" := by
  refine ⟨by decide, by decide, by decide, by decide, by decide⟩

/- ## Base64 round trip -/

theorem decB64_encB64 : ∀ n, n < 64 → decB64 (encB64 n) = some n := by decide

theorem encB64_ne_pad : ∀ n, n < 64 → ¬encB64 n = '=' := by decide

theorem base64_decode_encode : ∀ bs : List Nat, (∀ b ∈ bs, b < 256) →
    base64Decode (base64Encode bs) = some bs
  | [], _ => by simp [base64Encode, base64Decode]
  | [b1], h => by
    have hb1 : b1 < 256 := h b1 (by simp)
    have h1 : b1 / 4 < 64 := by omega
    have h2 : b1 % 4 * 16 < 64 := by omega
    simp only [base64Encode, base64Decode, if_true, and_self, Option.bind_eq_bind,
      decB64_encB64 _ h1, decB64_encB64 _ h2, Option.some_bind]
    have hc : b1 % 4 * 16 % 16 = 0 := by omega
    have hv : b1 / 4 * 4 + b1 % 4 * 16 / 16 = b1 := by omega
    rw [if_pos hc, hv]
  | [b1, b2], h => by
    have hb1 : b1 < 256 := h b1 (by simp)
    have hb2 : b2 < 256 := h b2 (by simp)
    have h1 : b1 / 4 < 64 := by omega
    have h2 : b1 % 4 * 16 + b2 / 16 < 64 := by omega
    have h3 : b2 % 16 * 4 < 64 := by omega
    simp only [base64Encode, base64Decode, encB64_ne_pad _ h3, if_true, if_false, and_self,
      Option.bind_eq_bind, decB64_encB64 _ h1, decB64_encB64 _ h2, decB64_encB64 _ h3,
      Option.some_bind]
    have hc : b2 % 16 * 4 % 4 = 0 := by omega
    have hv1 : b1 / 4 * 4 + (b1 % 4 * 16 + b2 / 16) / 16 = b1 := by omega
    have hv2 : (b1 % 4 * 16 + b2 / 16) % 16 * 16 + b2 % 16 * 4 / 4 = b2 := by omega
    rw [if_pos hc, hv1, hv2]
  | b1 :: b2 :: b3 :: rest, h => by
    have hb1 : b1 < 256 := h b1 (by simp)
    have hb2 : b2 < 256 := h b2 (by simp)
    have hb3 : b3 < 256 := h b3 (by simp)
    have h1 : b1 / 4 < 64 := by omega
    have h2 : b1 % 4 * 16 + b2 / 16 < 64 := by omega
    have h3 : b2 % 16 * 4 + b3 / 64 < 64 := by omega
    have h4 : b3 % 64 < 64 := by omega
    have hrest : ∀ b ∈ rest, b < 256 := fun b hb => h b (by simp [hb])
    have ih := base64_decode_encode rest hrest
    have hv1 : b1 / 4 * 4 + (b1 % 4 * 16 + b2 / 16) / 16 = b1 := by omega
    have hv2 : (b1 % 4 * 16 + b2 / 16) % 16 * 16 + (b2 % 16 * 4 + b3 / 64) / 4 = b2 := by
      omega
    have hv3 : (b2 % 16 * 4 + b3 / 64) % 4 * 64 + b3 % 64 = b3 := by omega
    simp only [base64Encode, base64Decode, encB64_ne_pad _ h3, encB64_ne_pad _ h4,
      if_true, if_false, and_self, Option.bind_eq_bind, decB64_encB64 _ h1,
      decB64_encB64 _ h2, decB64_encB64 _ h3, decB64_encB64 _ h4, Option.some_bind, ih,
      hv1, hv2, hv3]

/- ## JSON string escaping round trip -/

theorem hexVal_hexDigit : ∀ n, n < 16 → hexVal (hexDigit n) = some n := by decide

theorem char_valid_ranges (c : Char) :
    c.toNat < 55296 ∨ (57343 < c.toNat ∧ c.toNat < 1114112) := by
  have h := c.valid
  simp [UInt32.isValidChar, Nat.isValidChar] at h
  rcases h with h | h
  · exact Or.inl h
  · exact Or.inr h

theorem char_toNat_ofNat (n : Nat) (h : n.isValidChar) : (Char.ofNat n).toNat = n := by
  simp only [Char.ofNat, dif_pos h]
  simp [Char.ofNatAux, Char.toNat, UInt32.toNat]

theorem parseUEscape4_uEscapeDigits (n : Nat) (h : n < 65536) (rest : List Char) :
    parseUEscape4 (uEscapeDigits n ++ rest) = some (n, rest) := by
  simp only [uEscapeDigits, List.cons_append, List.nil_append, parseUEscape4,
    hexVal_hexDigit (n / 4096 % 16) (by omega), hexVal_hexDigit (n / 256 % 16) (by omega),
    hexVal_hexDigit (n / 16 % 16) (by omega), hexVal_hexDigit (n % 16) (by omega)]
  have hn : ((n / 4096 % 16 * 16 + n / 256 % 16) * 16 + n / 16 % 16) * 16 + n % 16 = n := by
    omega
  rw [hn]

theorem optionBindSome {A B : Type} (a : A) (f : A → Option B) : (some a).bind f = f a := rfl

theorem parseUChar_bmp (n : Nat) (hn : n < 55296 ∨ (57343 < n ∧ n < 65536))
    (rest : List Char) :
    parseUChar (uEscapeDigits n ++ rest) = some (Char.ofNat n, rest) := by
  rw [parseUChar, parseUEscape4_uEscapeDigits n (by omega), optionBindSome]
  dsimp only
  rw [if_pos (by omega : n < 55296 ∨ 57344 ≤ n)]

theorem parseUChar_surrogate (k : Nat) (hk : 65536 ≤ k) (hk2 : k < 1114112)
    (rest : List Char) :
    parseUChar (uEscapeDigits (55296 + (k - 65536) / 1024) ++
      ('\\' :: 'u' :: (uEscapeDigits (56320 + (k - 65536) % 1024) ++ rest))) =
    some (Char.ofNat k, rest) := by
  rw [parseUChar, parseUEscape4_uEscapeDigits (55296 + (k - 65536) / 1024) (by omega),
    optionBindSome]
  dsimp only
  rw [if_neg (by omega : ¬(55296 + (k - 65536) / 1024 < 55296 ∨
        57344 ≤ 55296 + (k - 65536) / 1024)),
    if_pos (by omega : 55296 + (k - 65536) / 1024 ≤ 56319),
    if_pos (⟨rfl, rfl⟩ : '\\' = '\\' ∧ 'u' = 'u'),
    parseUEscape4_uEscapeDigits (56320 + (k - 65536) % 1024) (by omega),
    optionBindSome]
  dsimp only
  rw [if_pos (by omega : 56320 ≤ 56320 + (k - 65536) % 1024 ∧
        56320 + (k - 65536) % 1024 ≤ 57343)]
  have hcomb : 65536 + (55296 + (k - 65536) / 1024 - 55296) * 1024 +
      (56320 + (k - 65536) % 1024 - 56320) = k := by omega
  rw [hcomb]

theorem optionMapSome {A B : Type} (f : A → B) (a : A) :
    Option.map f (some a) = some (f a) := rfl

theorem parseStrBody_close (fuel : Nat) (rest : List Char) :
    parseStrBody (fuel + 1) ('"' :: rest) = some ([], rest) := rfl

theorem parseStrBody_bslash (fuel : Nat) (e : Char) (rest : List Char) :
    parseStrBody (fuel + 1) ('\\' :: e :: rest) =
      (if e = 'u' then
        match parseUChar rest with
        | some (ch, rest2) => (parseStrBody fuel rest2).map (fun p => (ch :: p.1, p.2))
        | none => none
      else
        match simpleEscape e with
        | some d => (parseStrBody fuel rest).map (fun p => (d :: p.1, p.2))
        | none => none) := rfl

theorem parseStrBody_cons (fuel : Nat) (c : Char) (rest : List Char)
    (h1 : ¬c = '"') (h2 : ¬c = '\\') (h3 : ¬c.toNat < 32) :
    parseStrBody (fuel + 1) (c :: rest) =
      (parseStrBody fuel rest).map (fun p => (c :: p.1, p.2)) := by
  rw [parseStrBody.eq_def]
  dsimp only
  rw [if_neg h1, if_neg h2, if_neg h3]

theorem parseStrBody_escapeBody : ∀ (cs : List Char) (fuel : Nat) (rest : List Char),
    cs.length < fuel → parseStrBody fuel (escapeBody cs ++ '"' :: rest) = some (cs, rest) := by
  intro cs
  induction cs with
  | nil =>
    intro fuel rest hf
    match fuel, hf with
    | f + 1, _ =>
      rw [show escapeBody [] ++ '"' :: rest = '"' :: rest from rfl, parseStrBody_close]
  | cons c cs ih =>
    intro fuel rest hf
    match fuel, hf with
    | f + 1, hf =>
    have hff : cs.length < f := by
      have := hf
      simp only [List.length_cons] at this
      omega
    have hassoc : escapeBody (c :: cs) ++ '"' :: rest =
        escapeChar c ++ (escapeBody cs ++ '"' :: rest) := by
      rw [escapeBody, List.append_assoc]
    rw [hassoc]
    by_cases h1 : c = '"'
    · subst h1
      rw [show escapeChar '"' ++ (escapeBody cs ++ '"' :: rest) =
          '\\' :: '"' :: (escapeBody cs ++ '"' :: rest) from rfl]
      rw [parseStrBody_bslash, if_neg (by decide : ¬('"' : Char) = 'u'),
        show simpleEscape '"' = some '"' from rfl]
      dsimp only
      rw [ih f rest hff, optionMapSome]
    · by_cases h2 : c = '\\'
      · subst h2
        rw [show escapeChar '\\' ++ (escapeBody cs ++ '"' :: rest) =
            '\\' :: '\\' :: (escapeBody cs ++ '"' :: rest) from rfl]
        rw [parseStrBody_bslash, if_neg (by decide : ¬('\\' : Char) = 'u'),
          show simpleEscape '\\' = some '\\' from rfl]
        dsimp only
        rw [ih f rest hff, optionMapSome]
      · by_cases h3 : c.toNat < 32 ∨ 127 ≤ c.toNat
        · by_cases h4 : c.toNat < 65536
          · have he : escapeChar c = uEscape c.toNat := by
              rw [escapeChar, if_neg h1, if_neg h2, if_pos h3, if_pos h4]
            have hbmp : c.toNat < 55296 ∨ (57343 < c.toNat ∧ c.toNat < 65536) := by
              rcases char_valid_ranges c with hv | hv
              · exact Or.inl hv
              · exact Or.inr ⟨hv.1, h4⟩
            rw [he]
            rw [show uEscape c.toNat ++ (escapeBody cs ++ '"' :: rest) =
                '\\' :: 'u' :: (uEscapeDigits c.toNat ++ (escapeBody cs ++ '"' :: rest)) by
              rw [uEscape, List.cons_append, List.cons_append]]
            rw [parseStrBody_bslash, if_pos (rfl : ('u' : Char) = 'u'),
              parseUChar_bmp c.toNat hbmp (escapeBody cs ++ '"' :: rest)]
            dsimp only
            rw [ih f rest hff, optionMapSome, Char.ofNat_toNat]
          · have hround : c.toNat < 1114112 := by
              rcases char_valid_ranges c with hv | hv
              · omega
              · omega
            have he : escapeChar c = uEscape (55296 + (c.toNat - 65536) / 1024) ++
                uEscape (56320 + (c.toNat - 65536) % 1024) := by
              rw [escapeChar, if_neg h1, if_neg h2, if_pos h3, if_neg h4]
            rw [he]
            rw [show (uEscape (55296 + (c.toNat - 65536) / 1024) ++
                  uEscape (56320 + (c.toNat - 65536) % 1024)) ++
                  (escapeBody cs ++ '"' :: rest) =
                '\\' :: 'u' :: (uEscapeDigits (55296 + (c.toNat - 65536) / 1024) ++
                  ('\\' :: 'u' :: (uEscapeDigits (56320 + (c.toNat - 65536) % 1024) ++
                    (escapeBody cs ++ '"' :: rest)))) by
              rw [uEscape, uEscape]
              simp only [List.cons_append, List.append_assoc]]
            rw [parseStrBody_bslash, if_pos (rfl : ('u' : Char) = 'u'),
              parseUChar_surrogate c.toNat (by omega) hround (escapeBody cs ++ '"' :: rest)]
            dsimp only
            rw [ih f rest hff, optionMapSome, Char.ofNat_toNat]
        · have he : escapeChar c = [c] := by
            rw [escapeChar, if_neg h1, if_neg h2, if_neg h3]
          rw [he]
          rw [show [c] ++ (escapeBody cs ++ '"' :: rest) =
              c :: (escapeBody cs ++ '"' :: rest) from rfl]
          rw [parseStrBody_cons f c _ h1 h2 (by omega), ih f rest hff, optionMapSome]

/- ## Decimal digits round trip -/

theorem digitChar_isDigit : ∀ d, d < 10 → (digitChar d).isDigit = true := by decide

theorem digitChar_toNat (d : Nat) (h : d < 10) : (digitChar d).toNat = 48 + d := by
  have hv : (48 + d).isValidChar := Or.inl (by omega)
  rw [digitChar, char_toNat_ofNat _ hv]

theorem isDigit_toNat (c : Char) (h : c.isDigit = true) : 48 ≤ c.toNat ∧ c.toNat ≤ 57 := by
  simp only [Char.isDigit, Bool.and_eq_true, decide_eq_true_eq] at h
  obtain ⟨h1, h2⟩ := h
  exact ⟨h1, h2⟩

theorem natDigitsRev_digits : ∀ (fuel n : Nat), ∀ c ∈ natDigitsRev fuel n,
    c.isDigit = true := by
  intro fuel
  induction fuel with
  | zero => intro n c hc; simp [natDigitsRev] at hc
  | succ f ihf =>
    intro n c hc
    by_cases h0 : n = 0
    · simp [natDigitsRev, h0] at hc
    · simp only [natDigitsRev, if_neg h0] at hc
      rcases List.mem_cons.mp hc with h | h
      · subst h; exact digitChar_isDigit _ (by omega)
      · exact ihf _ _ h

theorem natDigitsRev_val : ∀ (fuel n : Nat), n ≤ fuel →
    (natDigitsRev fuel n).foldr (fun c a => a * 10 + (c.toNat - 48)) 0 = n := by
  intro fuel
  induction fuel with
  | zero =>
    intro n h
    have h0 : n = 0 := by omega
    subst h0
    simp [natDigitsRev]
  | succ f ihf =>
    intro n h
    by_cases h0 : n = 0
    · subst h0; simp [natDigitsRev]
    · rw [natDigitsRev, if_neg h0, List.foldr_cons, ihf (n / 10) (by omega),
        digitChar_toNat (n % 10) (by omega)]
      omega

theorem digitsToNat_natDigits (n : Nat) : digitsToNat (natDigits n) = n := by
  by_cases h0 : n = 0
  · subst h0; decide
  · rw [natDigits, if_neg h0, digitsToNat, List.foldl_reverse]
    exact natDigitsRev_val n n (le_refl n)

theorem natDigits_digits (n : Nat) : ∀ c ∈ natDigits n, c.isDigit = true := by
  intro c hc
  by_cases h0 : n = 0
  · subst h0
    simp only [natDigits, if_pos rfl] at hc
    rcases List.mem_singleton.mp hc with h
    subst h; decide
  · rw [natDigits, if_neg h0] at hc
    exact natDigitsRev_digits n n c (List.mem_reverse.mp hc)

theorem natDigits_ne_nil (n : Nat) : ¬natDigits n = [] := by
  by_cases h0 : n = 0
  · subst h0; decide
  · rw [natDigits, if_neg h0]
    intro hemp
    have hnil : natDigitsRev n n = [] := by
      have := congrArg List.reverse hemp
      simpa using this
    obtain ⟨m, rfl⟩ : ∃ m, n = m + 1 := ⟨n - 1, by omega⟩
    rw [natDigitsRev, if_neg h0] at hnil
    cases hnil

theorem takeDigits_append : ∀ (ds rest : List Char), (∀ c ∈ ds, c.isDigit = true) →
    noDigitHead rest → takeDigits (ds ++ rest) = (ds, rest) := by
  intro ds
  induction ds with
  | nil =>
    intro rest hds hr
    cases rest with
    | nil => rfl
    | cons r rs =>
      have hrd : r.isDigit = false := hr
      simp [takeDigits, hrd]
  | cons d ds ihd =>
    intro rest hds hr
    have hd : d.isDigit = true := hds d (by simp)
    have htail := ihd rest (fun c hc => hds c (by simp [hc])) hr
    simp only [List.cons_append, takeDigits, hd, if_true, List.append_eq, htail]

/- ## Shape facts about the renderer -/

theorem hexDigit_ascii : ∀ d, d < 16 → (hexDigit d).toNat < 128 := by decide

theorem uEscapeDigits_ascii (n : Nat) : ∀ c ∈ uEscapeDigits n, c.toNat < 128 := by
  intro c hc
  simp only [uEscapeDigits, List.mem_cons, List.not_mem_nil, or_false] at hc
  rcases hc with h | h | h | h <;> (subst h; exact hexDigit_ascii _ (by omega))

theorem escapeChar_ascii (c : Char) : ∀ x ∈ escapeChar c, x.toNat < 128 := by
  intro x hx
  by_cases h1 : c = '"'
  · subst h1; simp only [escapeChar] at hx
    rcases List.mem_cons.mp hx with h | h
    · subst h; decide
    · rcases List.mem_singleton.mp h with h; subst h; decide
  · by_cases h2 : c = '\\'
    · subst h2; rw [escapeChar, if_neg h1, if_pos rfl] at hx
      rcases List.mem_cons.mp hx with h | h
      · subst h; decide
      · rcases List.mem_singleton.mp h with h; subst h; decide
    · by_cases h3 : c.toNat < 32 ∨ 127 ≤ c.toNat
      · by_cases h4 : c.toNat < 65536
        · rw [escapeChar, if_neg h1, if_neg h2, if_pos h3, if_pos h4, uEscape] at hx
          rcases List.mem_cons.mp hx with h | h
          · subst h; decide
          · rcases List.mem_cons.mp h with h | h
            · subst h; decide
            · exact uEscapeDigits_ascii _ x h
        · rw [escapeChar, if_neg h1, if_neg h2, if_pos h3, if_neg h4, uEscape, uEscape] at hx
          rcases List.mem_append.mp hx with h | h
          · rcases List.mem_cons.mp h with h | h
            · subst h; decide
            · rcases List.mem_cons.mp h with h | h
              · subst h; decide
              · exact uEscapeDigits_ascii _ x h
          · rcases List.mem_cons.mp h with h | h
            · subst h; decide
            · rcases List.mem_cons.mp h with h | h
              · subst h; decide
              · exact uEscapeDigits_ascii _ x h
      · rw [escapeChar, if_neg h1, if_neg h2, if_neg h3] at hx
        rcases List.mem_singleton.mp hx with h
        subst h
        omega

theorem escapeBody_ascii : ∀ (cs : List Char), ∀ x ∈ escapeBody cs, x.toNat < 128 := by
  intro cs
  induction cs with
  | nil => intro x hx; simp [escapeBody] at hx
  | cons c cs ih =>
    intro x hx
    rw [escapeBody] at hx
    rcases List.mem_append.mp hx with h | h
    · exact escapeChar_ascii c x h
    · exact ih x h

theorem natDigits_ascii (n : Nat) : ∀ c ∈ natDigits n, c.toNat < 128 := by
  intro c hc
  have := isDigit_toNat c (natDigits_digits n c hc)
  omega

theorem renderString_ascii (s : String) : ∀ c ∈ renderString s, c.toNat < 128 := by
  intro c hc
  rw [renderString] at hc
  rcases List.mem_cons.mp hc with h | h
  · subst h; decide
  · rcases List.mem_append.mp h with h | h
    · exact escapeBody_ascii s.data c h
    · rcases List.mem_singleton.mp h with h; subst h; decide

theorem renderInt_ascii (i : Int) : ∀ c ∈ renderInt i, c.toNat < 128 := by
  intro c hc
  rw [renderInt] at hc
  by_cases hneg : i < 0
  · rw [if_pos hneg] at hc
    rcases List.mem_cons.mp hc with h | h
    · subst h; decide
    · exact natDigits_ascii _ c h
  · rw [if_neg hneg] at hc
    exact natDigits_ascii _ c hc

theorem escapeChar_length (c : Char) : 1 ≤ (escapeChar c).length := by
  rw [escapeChar]
  split_ifs <;> simp [uEscape, uEscapeDigits]

theorem escapeBody_length_ge : ∀ cs : List Char, cs.length ≤ (escapeBody cs).length := by
  intro cs
  induction cs with
  | nil => simp [escapeBody]
  | cons c cs ih =>
    rw [escapeBody, List.length_append, List.length_cons]
    have := escapeChar_length c
    omega

theorem natDigits_length_pos (n : Nat) : 1 ≤ (natDigits n).length := by
  cases hnd : natDigits n with
  | nil => exact absurd hnd (natDigits_ne_nil n)
  | cons d ds => simp

theorem renderInt_length_pos (i : Int) : 1 ≤ (renderInt i).length := by
  rw [renderInt]
  by_cases hneg : i < 0
  · rw [if_pos hneg]; simp
  · rw [if_neg hneg]; exact natDigits_length_pos _

theorem fuelOf_pos : ∀ j : Json, 1 ≤ fuelOf j := by
  intro j
  cases j <;> simp [fuelOf]

/-- Every rendering starts with a character that identifies a value. -/
theorem render_starts (j : Json) : ∃ c cs2, render j = c :: cs2 ∧ isValueStart c := by
  cases j with
  | null => exact ⟨'n', _, rfl, Or.inl rfl⟩
  | bool b =>
    cases b with
    | true => exact ⟨'t', _, rfl, Or.inr (Or.inl rfl)⟩
    | false => exact ⟨'f', _, rfl, Or.inr (Or.inr (Or.inl rfl))⟩
  | num n =>
    by_cases hneg : n < 0
    · refine ⟨'-', natDigits ((-n).toNat), ?_, ?_⟩
      · rw [render, renderInt, if_pos hneg]
      · exact Or.inr (Or.inr (Or.inr (Or.inr (Or.inl rfl))))
    · cases hnd : natDigits n.toNat with
      | nil => exact absurd hnd (natDigits_ne_nil _)
      | cons d ds =>
        refine ⟨d, ds, ?_, ?_⟩
        · rw [render, renderInt, if_neg hneg, hnd]
        · have hd : d.isDigit = true := natDigits_digits _ d (by rw [hnd]; simp)
          exact Or.inr (Or.inr (Or.inr (Or.inr (Or.inr (Or.inr (Or.inr hd))))))
  | str s => exact ⟨'"', _, rfl, Or.inr (Or.inr (Or.inr (Or.inl rfl)))⟩
  | arr es =>
    cases es with
    | nil => exact ⟨'[', _, rfl, Or.inr (Or.inr (Or.inr (Or.inr (Or.inr (Or.inl rfl)))))⟩
    | cons e es =>
      exact ⟨'[', _, rfl, Or.inr (Or.inr (Or.inr (Or.inr (Or.inr (Or.inl rfl)))))⟩
  | obj fs =>
    cases fs with
    | nil =>
      exact ⟨'{', _, rfl, Or.inr (Or.inr (Or.inr (Or.inr (Or.inr (Or.inr (Or.inl rfl))))))⟩
    | cons f fs =>
      exact ⟨'{', _, rfl, Or.inr (Or.inr (Or.inr (Or.inr (Or.inr (Or.inr (Or.inl rfl))))))⟩

theorem valueStart_ne (c : Char) (h : isValueStart c) : ¬c = ']' ∧ ¬c = '}' := by
  refine ⟨fun heq => ?_, fun heq => ?_⟩ <;> subst heq <;>
    rcases h with h | h | h | h | h | h | h | h <;> exact absurd h (by decide)

theorem render_ascii_all : ∀ n : Nat,
    (∀ j, fuelOf j ≤ n → ∀ c ∈ render j, c.toNat < 128) ∧
    (∀ es, fuelOfElems es ≤ n → ∀ c ∈ renderElemsRest es, c.toNat < 128) ∧
    (∀ fs, fuelOfFields fs ≤ n → ∀ c ∈ renderFieldsRest fs, c.toNat < 128) := by
  intro n
  induction n with
  | zero =>
    refine ⟨fun j hj => absurd hj (by have := fuelOf_pos j; omega),
      fun es hes => ?_, fun fs hfs => ?_⟩
    · cases es with
      | nil => intro c hc; simp [renderElemsRest] at hc
      | cons e es =>
        rw [fuelOfElems] at hes
        have := fuelOf_pos e
        omega
    · cases fs with
      | nil => intro c hc; simp [renderFieldsRest] at hc
      | cons f fs =>
        rw [fuelOfFields] at hfs
        have := fuelOf_pos f.2
        omega
  | succ n ih =>
    refine ⟨fun j hj => ?_, fun es hes => ?_, fun fs hfs => ?_⟩
    · cases j with
      | null => intro c hc; rw [render] at hc; fin_cases hc <;> decide
      | bool b =>
        cases b with
        | true => intro c hc; rw [render] at hc; fin_cases hc <;> decide
        | false => intro c hc; rw [render] at hc; fin_cases hc <;> decide
      | num i => exact renderInt_ascii i
      | str s => exact renderString_ascii s
      | arr es =>
        cases es with
        | nil => intro c hc; rw [render] at hc; fin_cases hc <;> decide
        | cons e es =>
          simp only [fuelOf, fuelOfElems] at hj
          intro c hc
          rw [render] at hc
          rcases List.mem_cons.mp hc with h | h
          · subst h; decide
          · rcases List.mem_append.mp h with h | h
            · rcases List.mem_append.mp h with h | h
              · exact (ih.1 e (by omega)) c h
              · exact (ih.2.1 es (by omega)) c h
            · rcases List.mem_singleton.mp h with h; subst h; decide
      | obj fs =>
        cases fs with
        | nil => intro c hc; rw [render] at hc; fin_cases hc <;> decide
        | cons f fs =>
          simp only [fuelOf, fuelOfFields] at hj
          intro c hc
          rw [render] at hc
          rcases List.mem_cons.mp hc with h | h
          · subst h; decide
          · rcases List.mem_append.mp h with h | h
            · rcases List.mem_append.mp h with h | h
              · rw [renderField] at h
                rcases List.mem_append.mp h with h | h
                · exact renderString_ascii f.1 c h
                · rcases List.mem_cons.mp h with h | h
                  · subst h; decide
                  · exact (ih.1 f.2 (by omega)) c h
              · exact (ih.2.2 fs (by omega)) c h
            · rcases List.mem_singleton.mp h with h; subst h; decide
    · cases es with
      | nil => intro c hc; simp [renderElemsRest] at hc
      | cons e es =>
        simp only [fuelOfElems] at hes
        intro c hc
        rw [renderElemsRest] at hc
        rcases List.mem_cons.mp hc with h | h
        · subst h; decide
        · rcases List.mem_append.mp h with h | h
          · exact (ih.1 e (by omega)) c h
          · exact (ih.2.1 es (by omega)) c h
    · cases fs with
      | nil => intro c hc; simp [renderFieldsRest] at hc
      | cons f fs =>
        simp only [fuelOfFields] at hfs
        intro c hc
        rw [renderFieldsRest] at hc
        rcases List.mem_cons.mp hc with h | h
        · subst h; decide
        · rcases List.mem_append.mp h with h | h
          · rw [renderField] at h
            rcases List.mem_append.mp h with h | h
            · exact renderString_ascii f.1 c h
            · rcases List.mem_cons.mp h with h | h
              · subst h; decide
              · exact (ih.1 f.2 (by omega)) c h
          · exact (ih.2.2 fs (by omega)) c h

/-- Every character of a rendering is ASCII. -/
theorem render_ascii (j : Json) : ∀ c ∈ render j, c.toNat < 128 :=
  (render_ascii_all (fuelOf j)).1 j (le_refl _)

theorem fuelOf_le_render_all : ∀ n : Nat,
    (∀ j, fuelOf j ≤ n → fuelOf j ≤ (render j).length) ∧
    (∀ es, fuelOfElems es ≤ n → fuelOfElems es ≤ (renderElemsRest es).length) ∧
    (∀ fs, fuelOfFields fs ≤ n → fuelOfFields fs ≤ (renderFieldsRest fs).length) := by
  intro n
  induction n with
  | zero =>
    refine ⟨fun j hj => absurd hj (by have := fuelOf_pos j; omega),
      fun es hes => ?_, fun fs hfs => ?_⟩
    · cases es with
      | nil => simp [fuelOfElems]
      | cons e es =>
        rw [fuelOfElems] at hes
        have := fuelOf_pos e
        omega
    · cases fs with
      | nil => simp [fuelOfFields]
      | cons f fs =>
        rw [fuelOfFields] at hfs
        have := fuelOf_pos f.2
        omega
  | succ n ih =>
    refine ⟨fun j hj => ?_, fun es hes => ?_, fun fs hfs => ?_⟩
    · cases j with
      | null => simp [fuelOf, render]
      | bool b => cases b <;> simp [fuelOf, render]
      | num i =>
        have := renderInt_length_pos i
        simp only [fuelOf, render]
        omega
      | str s =>
        simp only [fuelOf, render, renderString, List.length_cons, List.length_append]
        omega
      | arr es =>
        cases es with
        | nil => simp [fuelOf, fuelOfElems, render]
        | cons e es =>
          simp only [fuelOf, fuelOfElems] at hj ⊢
          have h1 := ih.1 e (by omega)
          have h2 := ih.2.1 es (by omega)
          simp only [render, List.length_cons, List.length_append, List.length_singleton]
          omega
      | obj fs =>
        cases fs with
        | nil => simp [fuelOf, fuelOfFields, render]
        | cons f fs =>
          obtain ⟨k, v⟩ := f
          simp only [fuelOf, fuelOfFields] at hj ⊢
          have h1 := ih.1 v (by omega)
          have h2 := ih.2.2 fs (by omega)
          simp only [render, renderField, renderString, List.length_cons,
            List.length_append, List.length_singleton]
          omega
    · cases es with
      | nil => simp [fuelOfElems]
      | cons e es =>
        simp only [fuelOfElems] at hes ⊢
        have h1 := ih.1 e (by omega)
        have h2 := ih.2.1 es (by omega)
        simp only [renderElemsRest, List.length_cons, List.length_append]
        omega
    · cases fs with
      | nil => simp [fuelOfFields]
      | cons f fs =>
        obtain ⟨k, v⟩ := f
        simp only [fuelOfFields] at hfs ⊢
        have h1 := ih.1 v (by omega)
        have h2 := ih.2.2 fs (by omega)
        simp only [renderFieldsRest, renderField, renderString, List.length_cons,
          List.length_append]
        omega

/-- The fuel measure is bounded by the rendered length. -/
theorem fuelOf_le_render (j : Json) : fuelOf j ≤ (render j).length :=
  (fuelOf_le_render_all (fuelOf j)).1 j (le_refl _)

/- ## Unfolding lemmas for the value reader -/

theorem parseVal_null (fuel : Nat) (rest : List Char) :
    parseVal (fuel + 1) ('n' :: 'u' :: 'l' :: 'l' :: rest) = some (.null, rest) := rfl

theorem parseVal_true (fuel : Nat) (rest : List Char) :
    parseVal (fuel + 1) ('t' :: 'r' :: 'u' :: 'e' :: rest) = some (.bool true, rest) := rfl

theorem parseVal_false (fuel : Nat) (rest : List Char) :
    parseVal (fuel + 1) ('f' :: 'a' :: 'l' :: 's' :: 'e' :: rest) =
      some (.bool false, rest) := rfl

theorem parseVal_quote (fuel : Nat) (t : List Char) :
    parseVal (fuel + 1) ('"' :: t) =
      (parseStrBody (t.length + 1) t).map (fun p => (Json.str (String.mk p.1), p.2)) := rfl

theorem parseVal_minus (fuel : Nat) (t : List Char) :
    parseVal (fuel + 1) ('-' :: t) =
      (match takeDigits t with
       | ([], _) => none
       | (ds, rest2) => some (Json.num (-(digitsToNat ds : Int)), rest2)) := rfl

theorem parseVal_arr_nil (fuel : Nat) (rest : List Char) :
    parseVal (fuel
+ 1) ('[' :: ']' :: rest) = some (.arr [], rest) := rfl

theorem parseVal_lbracket (fuel : Nat) (r : Char) (rs : List Char) :
    parseVal (fuel + 1) ('[' :: r :: rs) =
      (if r = ']' then some (.arr [], rs)
       else (parseElems fuel (r :: rs)).map (fun p => (.arr p.1, p.2))) := rfl

theorem parseVal_obj_nil (fuel : Nat) (rest : List Char) :
    parseVal (fuel + 1) ('{' :: '}' :: rest) = some (.obj [], rest) := rfl

theorem parseVal_lbrace (fuel : Nat) (r : Char) (rs : List Char) :
    parseVal (fuel + 1) ('{' :: r :: rs) =
      (if r = '}' then some (.obj [], rs)
       else (parseFields fuel (r :: rs)).map (fun p => (.obj p.1, p.2))) := rfl

theorem digit_char_cases (d : Char) (hd : d.isDigit = true) :
    d = '0' ∨ d = '1' ∨ d = '2' ∨ d = '3' ∨ d = '4' ∨ d = '5' ∨ d = '6' ∨ d = '7' ∨
      d = '8' ∨ d = '9' := by
  have hb := isDigit_toNat d hd
  have hofn := Char.ofNat_toNat d
  have hc : d.toNat = 48 ∨ d.toNat = 49 ∨ d.toNat = 50 ∨ d.toNat = 51 ∨ d.toNat = 52 ∨
      d.toNat = 53 ∨ d.toNat = 54 ∨ d.toNat = 55 ∨ d.toNat = 56 ∨ d.toNat = 57 := by omega
  rcases hc with h | h | h | h | h | h | h | h | h | h
  · exact Or.inl (by rw [← hofn, h])
  · exact Or.inr (Or.inl (by rw [← hofn, h]))
  · exact Or.inr (Or.inr (Or.inl (by rw [← hofn, h])))
  · exact Or.inr (Or.inr (Or.inr (Or.inl (by rw [← hofn, h]))))
  · exact Or.inr (Or.inr (Or.inr (Or.inr (Or.inl (by rw [← hofn, h])))))
  · exact Or.inr (Or.inr (Or.inr (Or.inr (Or.inr (Or.inl (by rw [← hofn, h]))))))
  · exact Or.inr (Or.inr (Or.inr (Or.inr (Or.inr (Or.inr (Or.inl (by rw [← hofn, h])))))))
  · exact Or.inr (Or.inr (Or.inr (Or.inr (Or.inr (Or.inr (Or.inr
      (Or.inl (by rw [← hofn, h]))))))))
  · exact Or.inr (Or.inr (Or.inr (Or.inr (Or.inr (Or.inr (Or.inr (Or.inr
      (Or.inl (by rw [← hofn, h])))))))))
  · exact Or.inr (Or.inr (Or.inr (Or.inr (Or.inr (Or.inr (Or.inr (Or.inr
      (Or.inr (by rw [← hofn, h])))))))))

theorem parseVal_digit (fuel : Nat) (d : Char) (cs : List Char) (hd : d.isDigit = true) :
    parseVal (fuel + 1) (d :: cs) =
      some (Json.num (digitsToNat (takeDigits (d :: cs)).1 : Int),
        (takeDigits (d :: cs)).2) := by
  rcases digit_char_cases d hd with h | h | h | h | h | h | h | h | h | h <;> subst h <;> rfl

theorem noDigitHead_rbracket (rest : List Char) : noDigitHead (']' :: rest) := rfl

theorem noDigitHead_rbrace (rest : List Char) : noDigitHead ('}' :: rest) := rfl

theorem noDigitHead_comma (rest : List Char) : noDigitHead (',' :: rest) := rfl

theorem parse_render_aux : ∀ fuel : Nat,
    (∀ (j : Json) (rest : List Char), fuelOf j ≤ fuel → noDigitHead rest →
      parseVal fuel (render j ++ rest) = some (j, rest)) ∧
    (∀ (e : Json) (es : List Json) (rest : List Char), fuelOfElems (e :: es) ≤ fuel →
      noDigitHead rest →
      parseElems fuel (render e ++ (renderElemsRest es ++ (']' :: rest))) =
        some (e :: es, rest)) ∧
    (∀ (f : String × Json) (fs : List (String × Json)) (rest : List Char),
      fuelOfFields (f :: fs) ≤ fuel → noDigitHead rest →
      parseFields fuel (renderField f ++ (renderFieldsRest fs ++ ('}' :: rest))) =
        some (f :: fs, rest)) := by
  intro fuel
  induction fuel with
  | zero =>
    refine ⟨fun j rest hj _ => absurd hj (by have := fuelOf_pos j; omega),
      fun e es rest he _ => absurd he (by rw [fuelOfElems]; have := fuelOf_pos e; omega),
      fun f fs rest hf _ => absurd hf (by rw [fuelOfFields]; have := fuelOf_pos f.2; omega)⟩
  | succ fuel ih =>
    obtain ⟨ihV, ihE, ihF⟩ := ih
    refine ⟨fun j rest hj hrest => ?_, fun e es rest he hrest => ?_,
      fun f fs rest hf hrest => ?_⟩
    · cases j with
      | null =>
        rw [show render Json.null ++ rest = 'n' :: 'u' :: 'l' :: 'l' :: rest from rfl,
          parseVal_null]
      | bool b =>
        cases b with
        | true =>
          rw [show render (Json.bool true) ++ rest = 't' :: 'r' :: 'u' :: 'e' :: rest from rfl,
            parseVal_true]
        | false =>
          rw [show render (Json.bool false) ++ rest =
            'f' :: 'a' :: 'l' :: 's' :: 'e' :: rest from rfl, parseVal_false]
      | num i =>
        by_cases hneg : i < 0
        · rw [render, renderInt, if_pos hneg, List.cons_append, parseVal_minus]
          rw [takeDigits_append (natDigits ((-i).toNat)) rest (natDigits_digits _) hrest]
          obtain ⟨d, ds, hnd⟩ : ∃ d ds, natDigits ((-i).toNat) = d :: ds := by
            cases h : natDigits ((-i).toNat) with
            | nil => exact absurd h (natDigits_ne_nil _)
            | cons d ds => exact ⟨d, ds, rfl⟩
          rw [hnd]
          dsimp only
          rw [← hnd, digitsToNat_natDigits]
          have hval : (-(((-i).toNat : Nat) : Int)) = i := by omega
          rw [hval]
        · rw [render, renderInt, if_neg hneg]
          obtain ⟨d, ds, hnd⟩ : ∃ d ds, natDigits i.toNat = d :: ds := by
            cases h : natDigits i.toNat with
            | nil => exact absurd h (natDigits_ne_nil _)
            | cons d ds => exact ⟨d, ds, rfl⟩
          have hd : d.isDigit = true := natDigits_digits _ d (by rw [hnd]; simp)
          rw [hnd, List.cons_append, parseVal_digit fuel d (ds ++ rest) hd,
            ← List.cons_append, ← hnd,
            takeDigits_append (natDigits i.toNat) rest (natDigits_digits _) hrest]
          dsimp only
          rw [digitsToNat_natDigits]
          have hval : ((i.toNat : Nat) : Int) = i := by omega
          rw [hval]
      | str s =>
        rw [show render (Json.str s) ++ rest =
            '"' :: (escapeBody s.data ++ '"' :: rest) by
          rw [render, renderString]; simp [List.append_assoc]]
        rw [parseVal_quote]
        have hlen : s.data.length < (escapeBody s.data ++ '"' :: rest).length + 1 := by
          have := escapeBody_length_ge s.data
          simp only [List.length_append, List.length_cons]
          omega
        rw [parseStrBody_escapeBody s.data _ rest hlen, optionMapSome]
      | arr es =>
        cases es with
        | nil =>
          rw [show render (Json.arr []) ++ rest = '[' :: ']' :: rest from rfl,
            parseVal_arr_nil]
        | cons e es =>
          obtain ⟨c0, cs0, hc0, hstart⟩ := render_starts e
          have hne := (valueStart_ne c0 hstart).1
          rw [show render (Json.arr (e :: es)) ++ rest =
              '[' :: (render e ++ (renderElemsRest es ++ (']' :: rest))) by
            rw [render]; simp [List.append_assoc]]
          rw [hc0, List.cons_append, parseVal_lbracket, if_neg hne,
            ← List.cons_append, ← hc0]
          rw [ihE e es rest (by simp only [fuelOf] at hj; omega) hrest, optionMapSome]
      | obj fs =>
        cases fs with
        | nil =>
          rw [show render (Json.obj []) ++ rest = '{' :: '}' :: rest from rfl,
            parseVal_obj_nil]
        | cons f fs =>
          obtain ⟨k, v⟩ := f
          rw [show render (Json.obj ((k, v) :: fs)) ++ rest =
              '{' :: (renderField (k, v) ++ (renderFieldsRest fs ++ ('}' :: rest))) by
            rw [render]; simp [List.append_assoc]]
          have hrf : renderField (k, v) ++ (renderFieldsRest fs ++ ('}' :: rest)) =
              '"' :: (escapeBody k.data ++
                ('"' :: (':' :: (render v ++ (renderFieldsRest fs ++ ('}' :: rest)))))) := by
            rw [renderField, renderString]; simp [List.append_assoc]
          rw [hrf, parseVal_lbrace, if_neg (by decide : ¬('"' : Char) = '}'), ← hrf]
          rw [ihF (k, v) fs rest (by simp only [fuelOf] at hj; omega) hrest, optionMapSome]
    · -- parseElems
      rw [parseElems]
      cases es with
      | nil =>
        rw [renderElemsRest, List.nil_append]
        rw [ihV e (']' :: rest) (by rw [fuelOfElems, fuelOfElems] at he; omega)
          (noDigitHead_rbracket rest)]
        simp only [Option.bind_eq_bind, Option.some_bind]
        rfl
      | cons e2 es2 =>
        rw [renderElemsRest,
          show (',' :: (render e2 ++ renderElemsRest es2)) ++ (']' :: rest) =
            ',' :: (render e2 ++ (renderElemsRest es2 ++ (']' :: rest))) by
          simp [List.append_assoc]]
        rw [ihV e (',' :: (render e2 ++ (renderElemsRest es2 ++ (']' :: rest))))
          (by rw [fuelOfElems] at he; omega) (noDigitHead_comma _)]
        have hrec := ihE e2 es2 rest
          (by rw [fuelOfElems, fuelOfElems] at he; rw [fuelOfElems]; omega) hrest
        simp only [Option.bind_eq_bind, Option.some_bind]
        rw [if_pos trivial, hrec, optionMapSome]
    · -- parseFields
      obtain ⟨k, v⟩ := f
      cases fs with
      | nil =>
        have hrf : renderField (k, v) ++
            (renderFieldsRest ([] : List (String × Json)) ++ ('}' :: rest)) =
            '"' :: (escapeBody k.data ++ ('"' :: (':' :: (render v ++ ('}' :: rest))))) := by
          rw [renderField, renderString, renderFieldsRest]; simp [List.append_assoc]
        rw [hrf, parseFields]
        have hlen : k.data.length <
            (escapeBody k.data ++ ('"' :: (':' :: (render v ++ ('}' :: rest))))).length + 1 := by
          have := escapeBody_length_ge k.data
          simp only [List.length_append, List.length_cons]
          omega
        rw [show escapeBody k.data ++ ('"' :: (':' :: (render v ++ ('}' :: rest)))) =
            escapeBody k.data ++ '"' :: (':' :: (render v ++ ('}' :: rest))) from rfl] at hlen
        rw [parseStrBody_escapeBody k.data _ (':' :: (render v ++ ('}' :: rest))) hlen]
        simp only [Option.bind_eq_bind, Option.some_bind]
        rw [if_pos trivial]
        rw [ihV v ('}' :: rest) (by rw [fuelOfFields] at hf; dsimp only at hf; omega)
          (noDigitHead_rbrace rest)]
        simp only [Option.bind_eq_bind, Option.some_bind]
        rfl
      | cons f2 fs2 =>
        have hrf : renderField (k, v) ++ (renderFieldsRest (f2 :: fs2) ++ ('}' :: rest)) =
            '"' :: (escapeBody k.data ++ ('"' :: (':' :: (render v ++
              (',' :: (renderField f2 ++ (renderFieldsRest fs2 ++ ('}' :: rest)))))))) := by
          rw [renderField, renderString, renderFieldsRest]; simp [List.append_assoc]
        rw [hrf, parseFields]
        have hlen : k.data.length <
            (escapeBody k.data ++ ('"' :: (':' :: (render v ++
              (',' :: (renderField f2 ++ (renderFieldsRest fs2 ++ ('}' :: rest)))))))).length + 1 := by
          have := escapeBody_length_ge k.data
          simp only [List.length_append, List.length_cons]
          omega
        rw [parseStrBody_escapeBody k.data _
          (':' :: (render v ++ (',' :: (renderField f2 ++ (renderFieldsRest fs2 ++ ('}' :: rest)))))) hlen]
        simp only [Option.bind_eq_bind, Option.some_bind]
        rw [if_pos trivial]
        rw [ihV v (',' :: (renderField f2 ++ (renderFieldsRest fs2 ++ ('}' :: rest))))
          (by rw [fuelOfFields] at hf; dsimp only at hf; omega) (noDigitHead_comma _)]
        simp only [Option.bind_eq_bind, Option.some_bind]
        rw [if_pos trivial]
        rw [ihF f2 fs2 rest
          (by rw [fuelOfFields, fuelOfFields] at hf; dsimp only at hf; rw [fuelOfFields]; omega)
          hrest, optionMapSome]
        rfl

/- ## Whole-value and pipeline round trips -/

/-- Reading back a rendering yields the original value. -/
theorem parseJson_render (j : Json) : parseJson (render j) = some j := by
  have hfuel : fuelOf j ≤ (render j).length + 1 := by
    have := fuelOf_le_render j
    omega
  have h := (parse_render_aux ((render j).length + 1)).1 j [] hfuel trivial
  rw [List.append_nil] at h
  rw [parseJson, h]

theorem jsonBytes_lt (j : Json) : ∀ b ∈ jsonBytes j, b < 256 := by
  intro b hb
  rw [jsonBytes] at hb
  obtain ⟨c, hc, rfl⟩ := List.mem_map.mp hb
  have := render_ascii j c hc
  omega

theorem exceptOkBind {E A B : Type} (a : A) (f : A → Except E B) :
    (Except.ok a).bind f = f a := rfl

/-- `from_slice` undoes `to_vec` on the byte level of the model. -/
theorem fromSlice_jsonBytes (j : Json) : fromSlice (jsonBytes j) = .ok j := by
  rw [fromSlice, jsonBytes, List.map_map,
    show (Char.ofNat ∘ Char.toNat) = fun c : Char => c from funext Char.ofNat_toNat,
    show (render j).map (fun c : Char => c) = render j from List.map_id _,
    parseJson_render]
  rfl

/-- `base64::decode` undoes the publish-side encoding of a value's bytes. -/
theorem decodeData_encodeData {M : Type} (toJson : M → Json) (v : M) :
    decodeData (encodeData toJson v) = .ok (jsonBytes (toJson v)) := by
  rw [decodeData, encodeData,
    show (String.mk (base64Encode (jsonBytes (toJson v)))).data =
      base64Encode (jsonBytes (toJson v)) from rfl,
    base64_decode_encode _ (jsonBytes_lt (toJson v))]
  rfl

/-- Claim C7: for a value whose serde encoding is coherent
(`fromJson (toJson v) = ok v`), the publish pipeline builds exactly the
base64-of-JSON data field, and the pull pipeline applied to that data field
with empty attributes and the identity transform decodes, parses and
deserializes back to the original value. -/
theorem publish_pull_round_trip {M : Type} (toJson : M → Json)
    (fromJson : Json → Except String M) (v : M)
    (h : fromJson (toJson v) = .ok v) :
    (∀ publishRaw : List PubSubMessage → Except Error (List String),
      publish (fun m => .ok (jsonBytes (toJson m))) publishRaw [(v, some [])] none =
        publishRaw [⟨some (encodeData toJson v), some [], none⟩]) ∧
    (∀ ackId id pt : String,
      (processOne fromJson identityTransform
        ⟨ackId, ⟨some (encodeData toJson v), some [], id, pt, none⟩, 0⟩).message =
        .ok v) := by
  constructor
  · intro publishRaw
    rfl
  · intro ackId id pt
    dsimp only [processOne]
    rw [show orErr (some (encodeData toJson v)) Error.noData =
      Except.ok (encodeData toJson v) from rfl, exceptOkBind,
      decodeData_encodeData toJson v, exceptOkBind, fromSlice_jsonBytes, exceptOkBind]
    dsimp only [identityTransform]
    rw [exceptOkBind, h]

/-- Witness for C7 at a concrete JSON value. -/
theorem publish_pull_round_trip_witness :
    (processOne (M := Json) Except.ok identityTransform
      ⟨"ack", ⟨some (encodeData id (Json.obj [("text", Json.str "test")])), some [],
        "id", "t", none⟩, 0⟩).message = .ok (Json.obj [("text", Json.str "test")]) ∧
    publish (fun m => .ok (jsonBytes (id m))) (fun _ => .ok ["id0"])
        [(Json.obj [("text", Json.str "test")], some [])] none =
      Except.ok ["id0"] :=
  ⟨(publish_pull_round_trip id Except.ok (Json.obj [("text", Json.str "test")]) rfl).2
      "ack" "id" "t",
   (publish_pull_round_trip id Except.ok (Json.obj [("text", Json.str "test")]) rfl).1
      (fun _ => .ok ["id0"])⟩

/- ## Skipping of unresolved paths (v1 transform) -/

theorem spliceStep_of_unresolved (attrs : List (String × String)) (v : Json)
    (tk : String × List String) (h : getPath v tk.2 = none) :
    spliceStep attrs v tk = v := by
  simp [spliceStep, h]

/-- Claim C6: in the v1 versioned transform an attribute key whose dotted
path does not resolve is silently skipped: the v1 branch always succeeds,
a splice step at an unresolved path leaves the value unchanged and can be
dropped from the processing sequence without changing the result, so every
resolvable key is still applied. -/
theorem versioned_transform_skips_unresolved (attrs : List (String × String)) (v : Json) :
    ((lookupAttr attrs "version").getD "v1" = "v1" →
      versionedTransform attrs v = .ok (applyTypeKeys attrs v)) ∧
    (∀ (w : Json) (tk : String × List String), getPath w tk.2 = none →
      spliceStep attrs w tk = w) ∧
    (∀ (l1 l2 : List (String × List String)) (tk : String × List String) (w : Json),
      getPath (l1.foldl (spliceStep attrs) w) tk.2 = none →
      (l1 ++ tk :: l2).foldl (spliceStep attrs) w = (l1 ++ l2).foldl (spliceStep attrs) w) := by
  refine ⟨fun h => ?_, fun w tk h => spliceStep_of_unresolved attrs w tk h,
    fun l1 l2 tk w h => ?_⟩
  · simp [versionedTransform, h]
  · rw [List.foldl_append, List.foldl_append, List.foldl_cons,
      spliceStep_of_unresolved attrs _ tk h]

/-- Witness for C6: `type.q` does not resolve in the payload, yet the
transform succeeds and the resolvable `type` key is still applied. -/
theorem versioned_transform_skips_unresolved_witness :
    versionedTransform [("type", "A"), ("type.q", "B")] (Json.obj [("x", Json.num 1)]) =
      .ok (applyTypeKeys [("type", "A"), ("type.q", "B")] (Json.obj [("x", Json.num 1)])) ∧
    applyTypeKeys [("type", "A"), ("type.q", "B")] (Json.obj [("x", Json.num 1)]) =
      Json.obj [("A", Json.obj [("x", Json.num 1)])] ∧
    spliceStep [] (Json.obj [("x", Json.num 1)]) ("type.q", ["q"]) =
      Json.obj [("x", Json.num 1)] ∧
    (([] ++ ("type.q", ["q"]) :: [(("type" : String), ([] : List String))]).foldl
        (spliceStep [("type", "A"), ("type.q", "B")]) (Json.obj [("x", Json.num 1)]) =
      ([] ++ [(("type" : String), ([] : List String))]).foldl
        (spliceStep [("type", "A"), ("type.q", "B")]) (Json.obj [("x", Json.num 1)])) :=
  ⟨(versioned_transform_skips_unresolved
      [("type", "A"), ("type.q", "B")] (Json.obj [("x", Json.num 1)])).1 rfl, rfl,
   (versioned_transform_skips_unresolved [] (Json.obj [("x", Json.num 1)])).2.1 _
      ("type.q", ["q"]) rfl,
   (versioned_transform_skips_unresolved
      [("type", "A"), ("type.q", "B")] (Json.obj [("x", Json.num 1)])).2.2
      [] [("type", [])] ("type.q", ["q"]) (Json.obj [("x", Json.num 1)]) rfl⟩
